import Mathlib

/-!
Verification development for the multi-agent workflow orchestrator.

This file gives a shallow embedding, in Lean 4, of the parts of the
orchestrator's Python source that the verified claims are about:

* `orchestrator/state.py` — the run-state document, its serialization
  (`RunState.to_dict` / `RunState.from_dict`), the atomic write protocol of
  `StateManager._write_state`, backup rotation and `attempt_repair`;
* `orchestrator/security/secrets.py` — `resolve_secrets`, `mask_text`,
  `mask_dict`;
* `orchestrator/variables/substitution.py` — `VariableSubstitutor`;
* `orchestrator/exec/output_capture.py` — text and JSON capture;
* `orchestrator/exec/retry.py` and the retry loop of
  `orchestrator/workflow/executor.py`;
* `orchestrator/deps/resolver.py` — dependency resolution;
* `orchestrator/workflow/conditions.py` — `exists` / `not_exists` conditions.

Python dictionaries, lists and JSON-serializable values are embedded as the
mutually inductive type `Json` / `JItems` / `JFields` below (an object's
fields are kept as an association list in insertion order, matching Python's
`dict`).  File system state touched by each component is made an explicit
parameter, and library calls with external behaviour (`glob.glob`,
`Path.resolve`, `json.loads`) are oracle parameters of the embedded
functions.  Machine text is embedded as `String` / `List Char`; byte counts
of UTF-8 encoded text are computed by `utf8Len`.
-/

namespace Orch

/-! ## JSON-like values (Python dict / list / scalar data) -/

mutual

inductive Json where
  | null
  | bool (b : Bool)
  | num (n : Int)
  | str (s : String)
  | arr (items : JItems)
  | obj (fields : JFields)
  deriving Repr

inductive JItems where
  | nil
  | cons (v : Json) (rest : JItems)
  deriving Repr

inductive JFields where
  | nil
  | cons (k : String) (v : Json) (rest : JFields)
  deriving Repr

end

/-- Association-list lookup, i.e. Python `dict.get` (keys are unique in a
Python dict; with duplicates the first entry wins). -/
def JFields.get? (k : String) : JFields → Option Json
  | .nil => none
  | .cons k1 v rest => if k1 = k then some v else JFields.get? k rest

/-- The keys of an object, in insertion order. -/
def JFields.keys : JFields → List String
  | .nil => []
  | .cons k _ rest => k :: JFields.keys rest

/-- Python truthiness of an embedded value (`if self.run_root:` etc.). -/
def Json.truthy : Json → Bool
  | .null => false
  | .bool b => b
  | .num n => n ≠ 0
  | .str s => s ≠ ""
  | .arr .nil => false
  | .arr (.cons _ _) => true
  | .obj .nil => false
  | .obj (.cons _ _ _) => true

/-! ## C1/C8 — the run-state document (`orchestrator/state.py`)

`ForEachState` and `RunState` mirror the dataclasses of `state.py`.  Python
dataclass fields are dynamically typed, so every field is embedded as `Json`;
`steps` is kept as the (already serialized) steps object — `StepResult.to_dict`
only re-serializes `StepResult` values into plain dicts, which in this
embedding are already `Json` objects. -/

structure ForEachState where
  items : Json
  completed_indices : Json
  current_index : Json
  deriving Repr

/-- `ForEachState` → dict, as produced by `dataclasses.asdict` (field order). -/
def ForEachState.to_dict (fe : ForEachState) : Json :=
  .obj (.cons "items" fe.items
    (.cons "completed_indices" fe.completed_indices
      (.cons "current_index" fe.current_index .nil)))

/-- `ForEachState(**state_dict)`: requires a dict whose keys are a subset of
the three field names and which contains `items` (the only field without a
default); any other shape raises `TypeError` (i.e. `none`). -/
def ForEachState.of_dict : Json → Option ForEachState
  | .obj fs =>
    if (fs.keys).all (fun k =>
        k = "items" ∨ k = "completed_indices" ∨ k = "current_index") then
      match fs.get? "items" with
      | some it =>
        some { items := it,
               completed_indices := (fs.get? "completed_indices").getD (.arr .nil),
               current_index := (fs.get? "current_index").getD .null }
      | none => none
    else none
  | _ => none

structure RunState where
  schema_version : Json
  run_id : Json
  workflow_file : Json
  workflow_checksum : Json
  started_at : Json
  updated_at : Json
  status : Json
  run_root : Json
  context : Json
  steps : Json
  for_each : List (String × ForEachState)
  deriving Repr

/-- `RunState.to_dict`: the fixed keys in insertion order; `run_root` is
included only when truthy (so `None` and `""` are both dropped); `for_each`
entries are serialized through `ForEachState.to_dict`. -/
def RunState.to_dict (s : RunState) : Json :=
  .obj (.cons "schema_version" s.schema_version
    (.cons "run_id" s.run_id
      (.cons "workflow_file" s.workflow_file
        (.cons "workflow_checksum" s.workflow_checksum
          (.cons "started_at" s.started_at
            (.cons "updated_at" s.updated_at
              (.cons "status" s.status
                (.cons "context" s.context
                  (.cons "steps" s.steps
                    (.cons "for_each"
                      (.obj (s.for_each.foldr
                        (fun nf acc => .cons nf.1 nf.2.to_dict acc) .nil))
                      (if s.run_root.truthy then
                        .cons "run_root" s.run_root .nil
                      else .nil)))))))))))

/-- Parse the `for_each` object of a state document
(`for_each[name] = ForEachState(**state_dict)`). -/
def parseForEach : JFields → Option (List (String × ForEachState))
  | .nil => some []
  | .cons k v rest =>
    match ForEachState.of_dict v, parseForEach rest with
    | some fe, some tail => some ((k, fe) :: tail)
    | _, _ => none

/-- `RunState.from_dict`: the seven scalar keys are mandatory (`data[...]`
raises `KeyError` when absent), `run_root` / `context` / `steps` fall back to
`data.get` defaults, and `for_each` is parsed entrywise. -/
def RunState.from_dict : Json → Option RunState
  | .obj data =>
    match data.get? "schema_version", data.get? "run_id",
          data.get? "workflow_file", data.get? "workflow_checksum",
          data.get? "started_at", data.get? "updated_at",
          data.get? "status" with
    | some sv, some rid, some wf, some wc, some sa, some ua, some st =>
      match data.get? "for_each" with
      | some (.obj fs) =>
        match parseForEach fs with
        | some fe =>
          some { schema_version := sv, run_id := rid, workflow_file := wf,
                 workflow_checksum := wc, started_at := sa, updated_at := ua,
                 status := st, run_root := (data.get? "run_root").getD .null,
                 context := (data.get? "context").getD (.obj .nil),
                 steps := (data.get? "steps").getD (.obj .nil), for_each := fe }
        | none => none
      | some _ => none
      | none =>
        some { schema_version := sv, run_id := rid, workflow_file := wf,
               workflow_checksum := wc, started_at := sa, updated_at := ua,
               status := st, run_root := (data.get? "run_root").getD .null,
               context := (data.get? "context").getD (.obj .nil),
               steps := (data.get? "steps").getD (.obj .nil), for_each := [] }
    | _, _, _, _, _, _, _ => none
  | _ => none

/-- Contents of a file on disk: either a complete serialized JSON document or
a partially written (unparseable) one. -/
inductive FileContent where
  | corrupt
  | doc (j : Json)
  deriving Repr

/-- The two files `_write_state` touches inside the run directory:
`state.json` and its neighbouring temp file `state.tmp`. -/
structure RunFs where
  stateFile : Option FileContent
  tmpFile : Option FileContent
  deriving Repr

/-- The primitive file-system steps of `_write_state`: appending output to the
open temp file (which can be interrupted mid-document, leaving `corrupt`), and
the atomic `temp_file.replace(self.state_file)` rename. -/
inductive FsOp where
  | writeTmp (c : FileContent)
  | renameTmpOverState
  deriving Repr

def applyOp (fs : RunFs) : FsOp → RunFs
  | .writeTmp c => { fs with tmpFile := some c }
  | .renameTmpOverState =>
    match fs.tmpFile with
    | some c => { stateFile := some c, tmpFile := none }
    | none => fs

def applyOps (fs : RunFs) : List FsOp → RunFs
  | [] => fs
  | op :: rest => applyOps (applyOp fs op) rest

/-- The file-system trace of `StateManager._write_state` for a state `s`:
`json.dump` streams the document into the temp file (so the temp file passes
through incomplete states before holding the complete document), then the
temp file is renamed over `state.json` in one atomic step. -/
def writeStateOps (s : RunState) : List FsOp :=
  [.writeTmp .corrupt, .writeTmp (.doc (RunState.to_dict s)), .renameTmpOverState]

/-! ## String ordering (Python string comparison and `sorted`) -/

/-- Lexicographic `≤` on character lists by code point, i.e. Python string
comparison. -/
def charsLe : List Char → List Char → Bool
  | [], _ => true
  | _ :: _, [] => false
  | a :: as, b :: bs => if a < b then true else if b < a then false else charsLe as bs

/-- Python `s1 <= s2` on strings. -/
def strLeB (a b : String) : Bool := charsLe a.data b.data

/-- Insert into a sorted list w.r.t. a boolean `le`. -/
def insertByLe {α : Type} (le : α → α → Bool) (x : α) : List α → List α
  | [] => [x]
  | y :: ys => if le x y then x :: y :: ys else y :: insertByLe le x ys

/-- Insertion sort w.r.t. a boolean `le` (Python `sorted` for a total order). -/
def sortByLe {α : Type} (le : α → α → Bool) (l : List α) : List α :=
  l.foldr (insertByLe le) []

/-- Python `sorted` on a list of strings. -/
def sortStrings (l : List String) : List String := sortByLe strLeB l

/-! ## C8 — backup rotation and `attempt_repair` (`orchestrator/state.py`)

The run directory is embedded as the `state.json` contents plus the backup
files, kept as an association list in **write order** (oldest first): writing
a backup file appends it, overwriting an existing one re-appends it (its
mtime is refreshed).  `glob` enumerates names; `sorted` on them is
`sortStrings`. -/

structure RunDir where
  stateFile : Option FileContent
  backups : List (String × FileContent)
  deriving Repr

/-- `state.json.step_<name>.bak`. -/
def backupFileName (step : String) : String := "state.json.step_" ++ step ++ ".bak"

/-- Write (or overwrite) a file: the entry moves to the end of the
write-order list. -/
def setFile (bs : List (String × FileContent)) (name : String) (c : FileContent) :
    List (String × FileContent) :=
  bs.filter (fun p => p.1 ≠ name) ++ [(name, c)]

/-- Contents of a named backup file. -/
def lookupFile (bs : List (String × FileContent)) (n : String) : Option FileContent :=
  (bs.find? (fun p => p.1 = n)).map Prod.snd

/-- `StateManager._rotate_backups`: glob the `state.json.step_*.bak` names,
sort them (lexicographically — Python `sorted` on file names), and when more
than `max_backups = 3` remain, unlink all but the last three of the sorted
order. -/
def rotateBackups (bs : List (String × FileContent)) : List (String × FileContent) :=
  if 3 < (sortStrings (bs.map Prod.fst)).length then
    bs.filter (fun p =>
      p.1 ∉ (sortStrings (bs.map Prod.fst)).take
        ((sortStrings (bs.map Prod.fst)).length - 3))
  else bs

/-- `StateManager.backup_state`: no-op unless backups are enabled and
`state.json` exists; otherwise copy `state.json` to
`state.json.step_<name>.bak` and rotate. -/
def backup_state (enabled : Bool) (d : RunDir) (step : String) : RunDir :=
  match enabled, d.stateFile with
  | true, some c =>
    { d with backups := rotateBackups (setFile d.backups (backupFileName step) c) }
  | _, _ => d

/-- Reading a backup file and parsing it as a state document
(`json.load` + `RunState.from_dict`; a partially written file fails
`json.load`). -/
def parseStateFile : FileContent → Option RunState
  | .corrupt => none
  | .doc j => RunState.from_dict j

/-- The order in which `attempt_repair` visits backups:
`sorted(glob(...), reverse=True)`, i.e. descending file-name order. -/
def repairOrder (d : RunDir) : List String :=
  (sortStrings (d.backups.map Prod.fst)).reverse

/-- The scan of `attempt_repair`: first backup (in the given order) that
parses as a valid state document. -/
def attemptRepairGo (d : RunDir) : List String → Option (String × RunState)
  | [] => none
  | n :: rest =>
    match (lookupFile d.backups n).bind parseStateFile with
    | some st => some (n, st)
    | none => attemptRepairGo d rest

/-- `StateManager.attempt_repair`: on success returns the chosen backup name,
the parsed state, and the directory with `state.json` replaced by a copy of
that backup; returns `none` when no backup parses. -/
def attempt_repair (d : RunDir) : Option (String × RunState × RunDir) :=
  match attemptRepairGo d (repairOrder d) with
  | some (n, st) => some (n, st, { d with stateFile := lookupFile d.backups n })
  | none => none

/-! ## C2 — secrets masking (`orchestrator/security/secrets.py`)

`mask_text` is `re.sub(re.escape(secret), "***", text)` for each recorded
secret value, longest value first; a `re.escape`d pattern matches literally,
and `re.sub` replaces non-overlapping occurrences left to right.  Text is
embedded as `List Char`. -/

def star : Char := '*'

/-- The replacement text `***`. -/
def starsRepl : List Char := [star, star, star]

/-- Literal, non-overlapping, left-to-right replacement of `pat` by `repl`
(the behaviour of `re.sub` with an escaped pattern). -/
def replaceAll (pat repl : List Char) : List Char → List Char
  | [] => []
  | c :: cs =>
    if pat ≠ [] ∧ pat.isPrefixOf (c :: cs) then
      repl ++ replaceAll pat repl (cs.drop (pat.length - 1))
    else
      c :: replaceAll pat repl cs
termination_by l => l.length
decreasing_by
  · have : (cs.drop (pat.length - 1)).length ≤ cs.length := by
      simp [List.length_drop]
    simp
    omega
  · simp

/-- Sort the recorded secret values longest first
(`sorted(self._masked_values, key=len, reverse=True)`; the underlying
Python set has no canonical order, so the embedding takes the values as a
list). -/
def sortLenDesc (l : List (List Char)) : List (List Char) :=
  sortByLe (fun a b => decide (b.length ≤ a.length)) l

/-- `SecretsManager.mask_text` on `List Char` text. -/
def maskChars (maskedValues : List (List Char)) (text : List Char) : List Char :=
  if text = [] ∨ maskedValues = [] then text
  else
    (sortLenDesc maskedValues).foldl
      (fun acc v => if v <:+: acc then replaceAll v starsRepl acc else acc) text

/-- `SecretsManager.mask_text` on `String`. -/
def mask_text (maskedValues : List (List Char)) (s : String) : String :=
  String.mk (maskChars maskedValues s.data)

/-- Top-level string masking of a list item inside `mask_dict`: string items
are masked, any other item (including nested dicts and lists) is passed
through unchanged. -/
def maskItemsTop (maskedValues : List (List Char)) : JItems → JItems
  | .nil => .nil
  | .cons v rest =>
    .cons (match v with
           | .str s => .str (mask_text maskedValues s)
           | j => j)
      (maskItemsTop maskedValues rest)

/-- `not data` for a dict: whether it is empty. -/
def isEmptyFields : JFields → Bool
  | .nil => true
  | .cons _ _ _ => false

mutual

/-- `SecretsManager.mask_dict`: given a dict, mask each string value, recurse
into dict values, mask only top-level string items of list values, and leave
every other value unchanged; empty dicts and an empty secret set short
circuit.  (Python only ever calls it on dicts; a non-dict argument is
returned unchanged here.) -/
def mask_dict (maskedValues : List (List Char)) : Json → Json
  | .obj fs =>
    if isEmptyFields fs ∨ maskedValues = [] then .obj fs
    else .obj (maskFields maskedValues fs)
  | j => j

def maskFields (maskedValues : List (List Char)) : JFields → JFields
  | .nil => .nil
  | .cons k v rest =>
    .cons k
      (match v with
       | .str s => .str (mask_text maskedValues s)
       | .obj fs1 => mask_dict maskedValues (.obj fs1)
       | .arr items => .arr (maskItemsTop maskedValues items)
       | j => j)
      (maskFields maskedValues rest)

end

mutual

/-- All string leaves of a value, however deeply nested (used to state what
"every persisted JSON leaf" means). -/
def Json.stringLeaves : Json → List String
  | .str s => [s]
  | .arr items => stringLeavesItems items
  | .obj fs => stringLeavesFields fs
  | _ => []

def stringLeavesItems : JItems → List String
  | .nil => []
  | .cons v rest => Json.stringLeaves v ++ stringLeavesItems rest

def stringLeavesFields : JFields → List String
  | .nil => []
  | .cons _ v rest => Json.stringLeaves v ++ stringLeavesFields rest

end

/-- Top-level string items of a list. -/
def topStrings : JItems → List String
  | .nil => []
  | .cons (.str s) rest => s :: topStrings rest
  | .cons _ rest => topStrings rest

mutual

/-- The strings of a dict that `mask_dict`'s traversal actually reaches:
string values, strings inside dict values (recursively), and top-level
string items of list values — not strings inside containers nested in
lists. -/
def maskReachable : Json → List String
  | .obj fs => maskReachableFields fs
  | _ => []

def maskReachableFields : JFields → List String
  | .nil => []
  | .cons _ v rest =>
    (match v with
     | .str s => [s]
     | .obj fs1 => maskReachable (.obj fs1)
     | .arr items => topStrings items
     | _ => []) ++ maskReachableFields rest

end

/-! ## C3/C10 — variable substitution (`orchestrator/variables/substitution.py`)

`VariableSubstitutor._substitute_string` first rewrites the escape `$$` to a
marker byte (`\x00`), then substitutes every `${body}` whose (non-empty,
`}`-free) body resolves, records unresolved bodies in the mutable set
`self.undefined_vars`, and finally restores markers to `$`.  The scanner
below consumes the marker-rewritten text left to right exactly as the
non-overlapping regex scan does.

`VariableSubstitutor.substitute` **clears** `self.undefined_vars` at the top
of every call, including the recursive `track_undefined=False` calls it makes
on the items of a list or the values of a dict, so after a container is
processed the set holds only the tokens of its last element; the embedding
threads that set explicitly (the second component). -/

def dollar : Char := '$'

def openBrace : Char := Char.ofNat 123

def closeBrace : Char := Char.ofNat 125

def escMarker : Char := Char.ofNat 0

/-- Phase 1: `text.replace("$$", "\x00")` (left-to-right, non-overlapping). -/
def collapseEsc : List Char → List Char
  | [] => []
  | [c] => [c]
  | c1 :: c2 :: rest =>
    if c1 = dollar ∧ c2 = dollar then escMarker :: collapseEsc rest
    else c1 :: collapseEsc (c2 :: rest)

/-- Phase 3: `result.replace("\x00", "$")`. -/
def restoreEsc (l : List Char) : List Char :=
  l.map (fun c => if c = escMarker then dollar else c)

/-- `set.add` on the recorded undefined tokens (order is immaterial in the
Python set; the embedding appends new tokens). -/
def addToken (u : List String) (t : String) : List String :=
  if t ∈ u then u else u ++ [t]

/-- Split a character list at a separator (Python `str.split`). -/
def splitOnChar (sep : Char) : List Char → List (List Char)
  | [] => [[]]
  | c :: rest =>
    let r := splitOnChar sep rest
    if c = sep then [] :: r
    else
      match r with
      | [] => [[c]]
      | h :: t => (c :: h) :: t

/-- `var_path.split(".")`. -/
def splitDots (s : String) : List String := (splitOnChar '.' s.data).map String.mk

/-- `VariableSubstitutor._resolve_path`: walk a dict along the parts,
treating a missing key, a `None` value, or a non-dict intermediate as
unresolved. -/
def resolvePath : Json → List String → Option Json
  | j, [] => some j
  | .obj fs, p :: rest =>
    match fs.get? p with
    | none => none
    | some .null => none
    | some v => resolvePath v rest
  | _, _ :: _ => none

/-- `VariableSubstitutor._resolve_steps_variable`. -/
def resolveStepsVar : Json → List String → Option Json
  | _, [] => none
  | .obj steps, stepName :: rest =>
    match steps.get? stepName with
    | none => none
    | some stepResult =>
      if rest = [] then some stepResult else resolvePath stepResult rest
  | _, _ :: _ => none

mutual

/-- `json.dumps` with default separators, used to render complex values. -/
def jsonDumps : Json → String
  | .null => "null"
  | .bool b => if b then "true" else "false"
  | .num n => toString n
  | .str s => "\"" ++ s ++ "\""
  | .arr items => "[" ++ jsonDumpsItems items ++ "]"
  | .obj fs => "\x7b" ++ jsonDumpsFields fs ++ "\x7d"

def jsonDumpsItems : JItems → String
  | .nil => ""
  | .cons v .nil => jsonDumps v
  | .cons v rest => jsonDumps v ++ ", " ++ jsonDumpsItems rest

def jsonDumpsFields : JFields → String
  | .nil => ""
  | .cons k v .nil => "\"" ++ k ++ "\": " ++ jsonDumps v
  | .cons k v rest => "\"" ++ k ++ "\": " ++ jsonDumps v ++ ", " ++ jsonDumpsFields rest

end

/-- `VariableSubstitutor._resolve_variable`. -/
def resolveVariable (vars : JFields) (varPath : String) : Option Json :=
  match splitDots varPath with
  | [] => none
  | ns :: rest =>
    if (vars.get? ns).isSome ∧ rest = [] then vars.get? ns
    else if ns = "run" ∨ ns = "loop" ∨ ns = "context" then
      resolvePath ((vars.get? ns).getD (.obj .nil)) rest
    else if ns = "steps" then
      resolveStepsVar ((vars.get? "steps").getD (.obj .nil)) rest
    else if ns = "item" then vars.get? "item"
    else none

/-- The string rendering of a resolved value in `replace_var`
(`bool` before `int` — Python checks `isinstance(value, bool)` first). -/
def encodeValue : Json → List Char
  | .bool b => (if b then "true" else "false").data
  | .num n => (toString n).data
  | .str s => s.data
  | j => (jsonDumps j).data

/-- Resolve one `${body}` token: `None` (our `.null`) counts as unresolved. -/
def resolveToken (vars : JFields) (body : List Char) : Option (List Char) :=
  match resolveVariable vars (String.mk body) with
  | none => none
  | some .null => none
  | some v => some (encodeValue v)

mutual

/-- Phase 2: scan marker-rewritten text for `${body}` tokens, substituting
resolved ones and recording unresolved ones; a failed match (`${}` or an
unterminated `${`) leaves the text untouched, matching the regex scan
restarting after a failed attempt. -/
def scanVars (vars : JFields) : List Char → List Char × List String
  | [] => ([], [])
  | c :: rest =>
    if c = dollar then
      match rest with
      | [] => ([dollar], [])
      | c2 :: rest2 =>
        if c2 = openBrace then scanBody vars [] rest2
        else
          let r := scanVars vars (c2 :: rest2)
          (dollar :: r.1, r.2)
    else
      let r := scanVars vars rest
      (c :: r.1, r.2)

/-- Scan the body of a candidate `${...}` token, `acc` holding the body
characters read so far. -/
def scanBody (vars : JFields) (acc : List Char) : List Char → List Char × List String
  | [] => (dollar :: openBrace :: acc, [])
  | c :: rest =>
    if c = closeBrace then
      if acc = [] then
        let r := scanVars vars rest
        (dollar :: openBrace :: closeBrace :: r.1, r.2)
      else
        match resolveToken vars acc with
        | some valChars =>
          let r := scanVars vars rest
          (valChars ++ r.1, r.2)
        | none =>
          let r := scanVars vars rest
          (dollar :: openBrace :: (acc ++ closeBrace :: r.1),
           addToken r.2 (String.mk acc))
    else scanBody vars (acc ++ [c]) rest

end

/-- `VariableSubstitutor._substitute_string`: collapse escapes, scan,
restore markers; returns the rewritten string and the tokens recorded in
`self.undefined_vars`. -/
def substituteString (vars : JFields) (s : String) : String × List String :=
  let collapsed := collapseEsc s.data
  let r := scanVars vars collapsed
  (String.mk (restoreEsc r.1), r.2)

mutual

/-- `VariableSubstitutor.substitute` with `track_undefined=False` (these
calls never raise): returns the substituted value and the contents of
`self.undefined_vars` when the call returns — the call clears the set on
entry, and for a container each recursive per-element call clears it again,
so the final set is the last element's. -/
def substNoTrack (vars : JFields) : Json → Json × List String
  | .str s =>
    let r := substituteString vars s
    (.str r.1, r.2)
  | .arr items =>
    let r := substItemsNT vars items
    (.arr r.1, r.2)
  | .obj fs =>
    let r := substFieldsNT vars fs
    (.obj r.1, r.2)
  | j => (j, [])

def substItemsNT (vars : JFields) : JItems → JItems × List String
  | .nil => (.nil, [])
  | .cons v rest =>
    let rv := substNoTrack vars v
    let rr := substItemsNT vars rest
    (.cons rv.1 rr.1,
     match rest with
     | .nil => rv.2
     | .cons _ _ => rr.2)

def substFieldsNT (vars : JFields) : JFields → JFields × List String
  | .nil => (.nil, [])
  | .cons k v rest =>
    let rv := substNoTrack vars v
    let rr := substFieldsNT vars rest
    (.cons k rv.1 rr.1,
     match rest with
     | .nil => rv.2
     | .cons _ _ _ => rr.2)

end

/-- `VariableSubstitutor.substitute` with `track_undefined=True`: after the
value is processed, raise `ValueError` (carrying the sorted token list) iff
`self.undefined_vars` is non-empty at that point. -/
def substitute (vars : JFields) (v : Json) : Except (List String) Json × List String :=
  let r := substNoTrack vars v
  if r.2 ≠ [] then (.error (sortStrings r.2), r.2) else (.ok r.1, r.2)

/-! ## C4 — secrets resolution (`orchestrator/security/secrets.py`,
`orchestrator/exec/step_executor.py`)

A process environment is an association list with unique keys. -/

abbrev Env : Type := List (String × String)

/-- Python `dict` lookup on an association list with unique keys. -/
def envGet? : Env → String → Option String
  | [], _ => none
  | p :: rest, k => if p.1 = k then some p.2 else envGet? rest k

/-- Python `dict` assignment `d[k] = v`: replace the entry in place, or
append a new one. -/
def envSet : Env → String → String → Env
  | [], k, v => [(k, v)]
  | p :: rest, k, v => if p.1 = k then (k, v) :: rest else p :: envSet rest k v

structure SecretsContext where
  declared_secrets : List String
  missing_secrets : List String
  secret_values : List (String × String)
  child_env : Env
  deriving Repr

/-- One iteration of the loop over `declared_secrets` in `resolve_secrets`:
the accumulator is (missing list, secret values, child env). -/
def declaredStep (osEnv : Env)
    (st : List String × List (String × String) × Env) (name : String) :
    List String × List (String × String) × Env :=
  match envGet? osEnv name with
  | some v => (st.1, envSet st.2.1 name v, envSet st.2.2 name v)
  | none => (st.1 ++ [name], st.2.1, st.2.2)

/-- One iteration of the step-env overlay in `resolve_secrets`: the
accumulator is (secret values, child env); the step value wins, and an
override of a declared name is recorded for masking. -/
def stepEnvStep (declared : List String)
    (st : List (String × String) × Env) (kv : String × String) :
    List (String × String) × Env :=
  (if kv.1 ∈ declared then envSet st.1 kv.1 kv.2 else st.1,
   envSet st.2 kv.1 kv.2)

/-- `SecretsManager.resolve_secrets`: start the child env from the process
env; for each declared name present in the process env (an empty value
counts as present) copy it into the child env and record it for masking,
else append it to the missing list; then overlay the step env (recording
overriding values of declared names); the nonempty recorded values are added
to the set of values to mask (second component). -/
def resolve_secrets (osEnv : Env) (declared : List String)
    (stepEnv : List (String × String)) : SecretsContext × List String :=
  let afterDeclared := declared.foldl (declaredStep osEnv) ([], [], osEnv)
  let afterStep := stepEnv.foldl (stepEnvStep declared)
    (afterDeclared.2.1, afterDeclared.2.2)
  let ctx : SecretsContext :=
    { declared_secrets := declared,
      missing_secrets := afterDeclared.1,
      secret_values := afterStep.1,
      child_env := afterStep.2 }
  (ctx, (afterStep.1.map Prod.snd).filter (fun v => v ≠ ""))

/-- The pre-spawn gate of `StepExecutor.execute_command`: when any declared
secret is missing, the step fails with exit 2 and error kind
`missing_secrets` carrying the missing list, and no subprocess is spawned. -/
structure CommandGate where
  exit_code : Int
  error_type : Option String
  missing_list : List String
  spawned : Bool
  deriving Repr

def execute_command_gate (osEnv : Env) (declared : List String)
    (stepEnv : List (String × String)) : CommandGate :=
  let ctx := (resolve_secrets osEnv declared stepEnv).1
  if ctx.missing_secrets ≠ [] then
    { exit_code := 2, error_type := some "missing_secrets",
      missing_list := ctx.missing_secrets, spawned := false }
  else
    { exit_code := 0, error_type := none, missing_list := [], spawned := true }

/-! ## C5/C6 — output capture (`orchestrator/exec/output_capture.py`)

Stdout is embedded as its decoded text (`List Char`); the byte length of the
raw stream is the UTF-8 length of the text (the valid-UTF-8 case;
`decode(errors="replace")` never shortens invalid input below this model's
counts in the regimes the claims quantify over). -/

def charWidth (c : Char) : Nat :=
  if c.toNat < 128 then 1
  else if c.toNat < 2048 then 2
  else if c.toNat < 65536 then 3
  else 4

/-- `len(text.encode("utf-8"))`. -/
def utf8Len (s : List Char) : Nat := (s.map charWidth).sum

def TEXT_LIMIT_BYTES : Nat := 8 * 1024

def LINES_LIMIT : Nat := 10000

def JSON_BUFFER_LIMIT : Nat := 1024 * 1024

/-- `while len(output.encode("utf-8")) > limit: output = output[:-1]`. -/
def shrinkToLimit (limit : Nat) (s : List Char) : List Char :=
  if utf8Len s ≤ limit then s else shrinkToLimit limit s.dropLast
termination_by s.length
decreasing_by
  have hne : s ≠ [] := by
    rintro rfl
    simp_all [utf8Len]
  cases s with
  | nil => exact absurd rfl hne
  | cons a as =>
    simp [List.length_dropLast]

/-- The state-visible part of a `CaptureResult`. -/
structure CaptureState where
  mode : String
  output : Option (List Char)
  lines : Option (List (List Char))
  json_data : Option Json
  truncated : Bool
  exit_code : Int
  error_type : Option String
  debug_parse_error : Bool
  deriving Repr

/-- Files written while capturing: the `logs/<step>.stdout` spill, the
`logs/<step>.stderr` file, and the `output_file` tee. -/
structure CaptureEffects where
  stdoutLog : Option (List Char)
  stderrLog : Option (List Char)
  outputFileContent : Option (List Char)
  deriving Repr

/-- `OutputCapture._capture_text` (AT-45): over 8 KiB, keep the first 8192
characters, pop characters until the UTF-8 encoding fits, spill the full raw
stdout to `logs/<step>.stdout`, and mark `truncated`. Returns the capture
state and the spill (if any). -/
def capture_text (text : List Char) (exit_code : Int) :
    CaptureState × Option (List Char) :=
  if TEXT_LIMIT_BYTES < utf8Len text then
    ({ mode := "text",
       output := some (shrinkToLimit TEXT_LIMIT_BYTES (text.take TEXT_LIMIT_BYTES)),
       lines := none, json_data := none, truncated := true,
       exit_code := exit_code, error_type := none, debug_parse_error := false },
     some text)
  else
    ({ mode := "text", output := some text, lines := none, json_data := none,
       truncated := false, exit_code := exit_code, error_type := none,
       debug_parse_error := false }, none)

/-- `"\r\n"` → `"\n"` normalization of `_capture_lines`. -/
def normalizeCrlf : List Char → List Char
  | [] => []
  | [c] => [c]
  | c1 :: c2 :: rest =>
    if c1 = '\r' ∧ c2 = '\n' then '\n' :: normalizeCrlf rest
    else c1 :: normalizeCrlf (c2 :: rest)

/-- `text.split("\n")`, then drop one trailing empty line. -/
def splitCaptureLines (text : List Char) : List (List Char) :=
  let ls := splitOnChar '\n' (normalizeCrlf text)
  match ls.getLast? with
  | some [] => ls.dropLast
  | _ => ls

/-- `OutputCapture._capture_lines` (AT-1): at most 10,000 lines, spilling the
full raw stdout when over. -/
def capture_lines (text : List Char) (exit_code : Int) :
    CaptureState × Option (List Char) :=
  let ls := splitCaptureLines text
  if LINES_LIMIT < ls.length then
    ({ mode := "lines", output := none, lines := some (ls.take LINES_LIMIT),
       json_data := none, truncated := true, exit_code := exit_code,
       error_type := none, debug_parse_error := false }, some text)
  else
    ({ mode := "lines", output := none, lines := some ls, json_data := none,
       truncated := false, exit_code := exit_code, error_type := none,
       debug_parse_error := false }, none)

/-- `OutputCapture._capture_json` (AT-2, AT-14, AT-15); `jsonLoads` is the
`json.loads` oracle (`none` = parse error). -/
def capture_json (jsonLoads : List Char → Option Json) (text : List Char)
    (allow_parse_error : Bool) (exit_code : Int) :
    CaptureState × Option (List Char) :=
  if JSON_BUFFER_LIMIT < utf8Len text then
    if allow_parse_error then
      ({ mode := "json",
         output := some (shrinkToLimit TEXT_LIMIT_BYTES (text.take TEXT_LIMIT_BYTES)),
         lines := none, json_data := none, truncated := true, exit_code := 0,
         error_type := none, debug_parse_error := true }, some text)
    else
      ({ mode := "json", output := none, lines := none, json_data := none,
         truncated := false, exit_code := 2, error_type := some "json_overflow",
         debug_parse_error := false }, none)
  else
    match jsonLoads text with
    | some j =>
      ({ mode := "json", output := none, lines := none, json_data := some j,
         truncated := false, exit_code := exit_code, error_type := none,
         debug_parse_error := false }, none)
    | none =>
      if allow_parse_error then
        if TEXT_LIMIT_BYTES < utf8Len text then
          ({ mode := "json",
             output := some (shrinkToLimit TEXT_LIMIT_BYTES (text.take TEXT_LIMIT_BYTES)),
             lines := none, json_data := none, truncated := true, exit_code := 0,
             error_type := none, debug_parse_error := true }, some text)
        else
          ({ mode := "json", output := some text, lines := none,
             json_data := none, truncated := false, exit_code := 0,
             error_type := none, debug_parse_error := true }, none)
      else
        ({ mode := "json", output := none, lines := none, json_data := none,
           truncated := false, exit_code := 2,
           error_type := some "json_parse_error", debug_parse_error := false },
         none)

/-- `OutputCapture.capture`: write stderr when non-empty, tee the **full**
stdout to `output_file` when specified (before any mode-specific processing),
then dispatch on the mode. -/
def capture (jsonLoads : List Char → Option Json) (stdout stderr : List Char)
    (mode : String) (output_file : Option String) (allow_parse_error : Bool)
    (exit_code : Int) : CaptureState × CaptureEffects :=
  let processed :=
    if mode = "text" then capture_text stdout exit_code
    else if mode = "lines" then capture_lines stdout exit_code
    else capture_json jsonLoads stdout allow_parse_error exit_code
  (processed.1,
   { stdoutLog := processed.2,
     stderrLog := if stderr ≠ [] then some stderr else none,
     outputFileContent := if output_file.isSome then some stdout else none })

/-! ## C7 — retry policy and the retry loop (`orchestrator/exec/retry.py`,
`orchestrator/workflow/executor.py`) -/

structure RetryPolicy where
  max_retries : Nat
  delay_ms : Nat
  retryable_codes : List Int
  deriving Repr

/-- `RetryPolicy.for_provider`. -/
def RetryPolicy.for_provider (max_retries delay_ms : Nat) : RetryPolicy :=
  { max_retries := max_retries, delay_ms := delay_ms, retryable_codes := [1, 124] }

/-- The `retries` field of a command step: absent, integer shorthand, or a
dict with `max` / `delay_ms` (with their defaults). -/
inductive RetriesConfig where
  | intConfig (n : Nat)
  | dictConfig (max : Nat) (delay_ms : Nat)
  deriving Repr

/-- `RetryPolicy.for_command`: with no config (or the falsy `0` shorthand),
no retries and no retryable codes; otherwise exit codes 1 and 124 are
retryable. -/
def RetryPolicy.for_command : Option RetriesConfig → RetryPolicy
  | none => { max_retries := 0, delay_ms := 1000, retryable_codes := [] }
  | some (.intConfig 0) => { max_retries := 0, delay_ms := 1000, retryable_codes := [] }
  | some (.intConfig n) => { max_retries := n, delay_ms := 1000, retryable_codes := [1, 124] }
  | some (.dictConfig m d) => { max_retries := m, delay_ms := d, retryable_codes := [1, 124] }

/-- `RetryPolicy.should_retry`. -/
def should_retry (p : RetryPolicy) (exit_code : Int) (attempt : Nat) : Bool :=
  if p.max_retries ≤ attempt then false
  else exit_code ∈ p.retryable_codes

/-- The retry loop of `WorkflowExecutor._execute_command_with_context`
(`while True: run; if should_retry: attempt += 1; continue; break`): the
index of the attempt whose result the loop keeps, given the exit code of
each attempt. -/
def finalAttemptFrom (p : RetryPolicy) (outcomes : Nat → Int) (attempt : Nat) : Nat :=
  if should_retry p (outcomes attempt) attempt then
    finalAttemptFrom p outcomes (attempt + 1)
  else attempt
termination_by p.max_retries - attempt
decreasing_by
  rename_i h
  simp [should_retry] at h
  omega

def finalAttempt (p : RetryPolicy) (outcomes : Nat → Int) : Nat :=
  finalAttemptFrom p outcomes 0

/-- The exit code the loop returns: the final attempt's outcome. -/
def runWithRetries (p : RetryPolicy) (outcomes : Nat → Int) : Int :=
  outcomes (finalAttempt p outcomes)

/-- The `on.success` / `on.failure` / `on.always` goto targets of a step. -/
structure StepHandlers where
  onSuccess : Option String
  onFailure : Option String
  onAlways : Option String
  deriving Repr

/-- `WorkflowExecutor._handle_control_flow` goto selection: success or
failure handler by the exit code, then `on.always` overrides. -/
def handleControlFlowGoto (h : StepHandlers) (exit_code : Int) : Option String :=
  let base := if exit_code = 0 then h.onSuccess else h.onFailure
  match h.onAlways with
  | some t => some t
  | none => base

/-- `WorkflowExecutor.execute` for one command step: the whole retry loop
runs inside `_execute_command_with_context`, and only afterwards is
`_handle_control_flow` consulted, on the final attempt's result. -/
def stepGotoDecision (p : RetryPolicy) (outcomes : Nat → Int)
    (h : StepHandlers) : Option String :=
  handleControlFlowGoto h (runWithRetries p outcomes)

/-! ## C9 — dependency resolution (`orchestrator/deps/resolver.py`)

`glob.glob` and `Path.resolve` are oracle parameters; paths are strings.  -/

structure DepsEnv where
  workspace : String
  globMatches : String → List String
  realPath : String → String

/-- `os.path.isabs` for POSIX paths. -/
def isAbsPath (p : String) : Bool :=
  match p.data with
  | c :: _ => c = '/'
  | [] => false

/-- `PurePosixPath(path).parts` (empty and `.` components disappear). -/
def pathParts (p : String) : List (List Char) :=
  (splitOnChar '/' p.data).filter (fun s => s ≠ [] ∧ s ≠ ['.'])

/-- `DependencyResolver._validate_path_safety`: raise on absolute paths and
on `..` components. -/
def validate_path_safety (path : String) : Option String :=
  if isAbsPath path then
    some ("Path safety violation: absolute path not allowed: " ++ path)
  else if ['.', '.'] ∈ pathParts path then
    some ("Path safety violation: parent directory traversal not allowed: " ++ path)
  else none

/-- `DependencyResolver._substitute_variables`: plain textual replacement of
`${key}` per variable. -/
def substituteVarsSimple (pattern : String) (vars : List (String × String)) : String :=
  String.mk (vars.foldl
    (fun acc kv => replaceAll (dollar :: openBrace :: kv.1.data ++ [closeBrace]) kv.2.data acc)
    pattern.data)

/-- Per-match handling inside `_resolve_patterns`: resolve the match's real
path, **raise** when it does not stay under the workspace
(`startswith` check and `relative_to`), else return the
workspace-relative path. -/
def checkMatches (env : DepsEnv) : List String → Except String (List String)
  | [] => .ok []
  | m :: rest =>
    let resolved := env.realPath m
    if ¬ env.workspace.data.isPrefixOf resolved.data then
      .error ("Path safety violation: symlink escapes workspace: " ++ m)
    else if resolved.data = env.workspace.data then
      match checkMatches env rest with
      | .ok tail => .ok ("." :: tail)
      | .error e => .error e
    else if ¬ (env.workspace.data ++ ['/']).isPrefixOf resolved.data then
      .error ("Path safety violation: resolved path outside workspace: " ++ resolved)
    else
      match checkMatches env rest with
      | .ok tail => .ok (String.mk (resolved.data.drop (env.workspace.data.length + 1)) :: tail)
      | .error e => .error e

/-- `DependencyResolver._resolve_patterns` over one pattern list: substitute
variables, validate safety (raising on violation), glob under the workspace,
reject symlink escapes (raising), sort each pattern's matches, track missing
required patterns.  Returns (matched files in pattern order, missing
patterns); deduplication happens in `dedupFiles` below. -/
def resolve_patterns (env : DepsEnv) (patterns : List String)
    (vars : List (String × String)) (required : Bool) :
    Except String (List String × List String) :=
  match patterns with
  | [] => .ok ([], [])
  | pat :: rest =>
    let expanded := substituteVarsSimple pat vars
    match validate_path_safety expanded with
    | some msg => .error msg
    | none =>
      match checkMatches env (env.globMatches (env.workspace ++ "/" ++ expanded)) with
      | .error e => .error e
      | .ok rel =>
        let sortedRel := sortStrings rel
        match resolve_patterns env rest vars required with
        | .error e => .error e
        | .ok (files, missing) =>
          if sortedRel ≠ [] then .ok (sortedRel ++ files, missing)
          else if required then .ok (files, expanded :: missing)
          else .ok (files, missing)

/-- The final `unique_files` pass: deduplicate preserving first occurrence. -/
def dedupFiles (l : List String) : List String :=
  l.foldl (fun acc x => if x ∈ acc then acc else acc ++ [x]) []

structure DependencyResolution where
  required_files : List String
  optional_files : List String
  missing_required : List String
  deriving Repr

/-- `DependencyResolution.files`: all resolved files, sorted. -/
def DependencyResolution.files (r : DependencyResolution) : List String :=
  sortStrings (r.required_files ++ r.optional_files)

/-- `DependencyResolver.resolve`. -/
def resolveDeps (env : DepsEnv) (requiredPatterns optionalPatterns : List String)
    (vars : List (String × String)) : Except String DependencyResolution :=
  match resolve_patterns env requiredPatterns vars true with
  | .error e => .error e
  | .ok (reqFiles, missing) =>
    match resolve_patterns env optionalPatterns vars false with
    | .error e => .error e
    | .ok (optFiles, _) =>
      .ok { required_files := dedupFiles reqFiles,
            optional_files := dedupFiles optFiles,
            missing_required := missing }

/-! ## C10 — `exists` / `not_exists` conditions
(`orchestrator/workflow/conditions.py`) -/

/-- `ConditionEvaluator._is_path_safe`. -/
def isPathSafeCond (p : String) : Bool :=
  ¬ isAbsPath p ∧ ['.', '.'] ∉ pathParts p

/-- `ConditionEvaluator._evaluate_exists`: substitution failure (undefined
variables) makes the condition false before any file-system access; an
unsafe substituted pattern raises; otherwise glob and count only matches
whose resolved path stays inside the workspace. -/
def evaluate_exists (fsGlob : String → List String) (realPath : String → String)
    (workspace : String) (vars : JFields) (pattern : String) : Except String Bool :=
  match (substitute vars (.str pattern)).1 with
  | .error _ => .ok false
  | .ok (.str p) =>
    if ¬ isPathSafeCond p then .error ("Unsafe path in exists condition: " ++ p)
    else
      .ok ((fsGlob (workspace ++ "/" ++ p)).any (fun m =>
        (realPath m).data = workspace.data ∨
          (workspace.data ++ ['/']).isPrefixOf (realPath m).data))
  | .ok _ => .ok false

/-- `ConditionEvaluator._evaluate_not_exists`: the negation of `exists`
(an exception from `exists` propagates). -/
def evaluate_not_exists (fsGlob : String → List String)
    (realPath : String → String) (workspace : String) (vars : JFields)
    (pattern : String) : Except String Bool :=
  match evaluate_exists fsGlob realPath workspace vars pattern with
  | .ok b => .ok (¬ b)
  | .error e => .error e

/-! ## Concrete values used by witnesses -/

/-- A dependency-resolution environment with one glob match whose resolved
(real) path lies outside the workspace — a symlink escaping the workspace. -/
def escapeEnv : DepsEnv :=
  { workspace := "/ws",
    globMatches := fun p => if p = "/ws/data/*" then ["/ws/data/link.txt"] else [],
    realPath := fun m => if m = "/ws/data/link.txt" then "/outside/secret.txt" else m }

/-- A dependency-resolution environment whose single match stays inside the
workspace. -/
def okEnv : DepsEnv :=
  { workspace := "/ws",
    globMatches := fun p => if p = "/ws/data/*" then ["/ws/data/a.txt"] else [],
    realPath := fun m => m }

/-- A minimal run state, as `StateManager.initialize` would create it. -/
def sampleState : RunState :=
  { schema_version := .str "1.1.1", run_id := .str "20250101T000000Z-abcdef",
    workflow_file := .str "workflow.yaml", workflow_checksum := .str "sha256:00",
    started_at := .str "2025-01-01T00:00:00+00:00",
    updated_at := .str "2025-01-01T00:00:00+00:00", status := .str "running",
    run_root := .null, context := .obj .nil, steps := .obj .nil, for_each := [] }

/-! # Theorems -/

/-! ## C1 — atomic persist -/

theorem of_dict_to_dict (fe : ForEachState) :
    ForEachState.of_dict (ForEachState.to_dict fe) = some fe := rfl

theorem parseForEach_fold (l : List (String × ForEachState)) :
    parseForEach (l.foldr (fun nf acc => .cons nf.1 nf.2.to_dict acc) .nil) = some l := by
  induction l with
  | nil => rfl
  | cons hd tl ih =>
    cases hd with
    | mk k fe => simp [parseForEach, of_dict_to_dict, ih]

/-- The serialized form of any `RunState` parses back as a `RunState`
(`from_dict` succeeds on every `to_dict` output). -/
theorem state_roundtrip (s : RunState) :
    ∃ t, RunState.from_dict (RunState.to_dict s) = some t := by
  unfold RunState.to_dict
  by_cases hr : s.run_root.truthy <;>
    simp [hr, RunState.from_dict, JFields.get?, parseForEach_fold]

/-- C1: `StateManager._write_state` serializes the state into the
neighbouring temp file and then renames it over `state.json`, so after any
prefix of its file-system steps — i.e. at every interrupt point — the
on-disk `state.json` holds either the complete previous document or the
complete next document, and in both cases its contents parse back to a valid
`RunState`; no partially written document is ever visible at `state.json`. -/
theorem C1_atomic_persist (old new : RunState) (fs : RunFs)
    (hold : fs.stateFile = some (.doc (RunState.to_dict old))) :
    ∀ k, k ≤ (writeStateOps new).length →
      ((applyOps fs ((writeStateOps new).take k)).stateFile
          = some (.doc (RunState.to_dict old))
        ∨ (applyOps fs ((writeStateOps new).take k)).stateFile
          = some (.doc (RunState.to_dict new)))
      ∧ ∃ j t, (applyOps fs ((writeStateOps new).take k)).stateFile = some (.doc j)
          ∧ RunState.from_dict j = some t := by
  intro k hk
  obtain ⟨t1, ht1⟩ := state_roundtrip old
  obtain ⟨t2, ht2⟩ := state_roundtrip new
  have hlen : (writeStateOps new).length = 3 := rfl
  rw [hlen] at hk
  interval_cases k
  · exact ⟨Or.inl hold, _, t1, hold, ht1⟩
  · exact ⟨Or.inl hold, _, t1, hold, ht1⟩
  · exact ⟨Or.inl hold, _, t1, hold, ht1⟩
  · exact ⟨Or.inr rfl, _, t2, rfl, ht2⟩

/-- Witness for C1 at a concrete state, file system, and interrupt point. -/
theorem C1_atomic_persist_witness :
    ((applyOps ⟨some (.doc (RunState.to_dict sampleState)), none⟩
        ((writeStateOps sampleState).take 3)).stateFile
        = some (.doc (RunState.to_dict sampleState))
      ∨ (applyOps ⟨some (.doc (RunState.to_dict sampleState)), none⟩
          ((writeStateOps sampleState).take 3)).stateFile
        = some (.doc (RunState.to_dict sampleState)))
    ∧ ∃ j t, (applyOps ⟨some (.doc (RunState.to_dict sampleState)), none⟩
          ((writeStateOps sampleState).take 3)).stateFile = some (.doc j)
        ∧ RunState.from_dict j = some t :=
  C1_atomic_persist sampleState sampleState
    ⟨some (.doc (RunState.to_dict sampleState)), none⟩ rfl 3 (by decide)

/-! ## C7 — retries before goto handlers -/

theorem finalAttemptFrom_le (p : RetryPolicy) (o : Nat → Int) (a : Nat)
    (ha : a ≤ p.max_retries) : finalAttemptFrom p o a ≤ p.max_retries := by
  rw [finalAttemptFrom]
  by_cases h : should_retry p (o a) a = true
  · rw [if_pos h]
    have hlt : a < p.max_retries := by
      by_contra hc
      simp [should_retry] at h
      omega
    exact finalAttemptFrom_le p o (a + 1) hlt
  · rw [if_neg h]
    exact ha
termination_by p.max_retries - a
decreasing_by
  omega

theorem finalAttemptFrom_retried (p : RetryPolicy) (o : Nat → Int) (a : Nat) :
    ∀ i, a ≤ i → i < finalAttemptFrom p o a → should_retry p (o i) i = true := by
  intro i hai hifin
  rw [finalAttemptFrom] at hifin
  by_cases h : should_retry p (o a) a = true
  · rw [if_pos h] at hifin
    rcases Nat.eq_or_lt_of_le hai with heq | hlt
    · rw [heq] at h
      exact h
    · have hlt2 : a < p.max_retries := by
        by_contra hc
        simp [should_retry] at h
        omega
      exact finalAttemptFrom_retried p o (a + 1) i hlt hifin
  · rw [if_neg h] at hifin
    omega
termination_by p.max_retries - a
decreasing_by
  omega

/-- C7: for every step with a retry policy built by the code
(`RetryPolicy.for_provider` or `RetryPolicy.for_command`), the retry loop's
final attempt index is bounded by `max_retries` (so at most
`max_retries + 1` attempts run, and `max_retries = 0` runs the step exactly
once), every attempt that triggered a retry exited with code 1 or 124, and
the `on`-handler goto decision is computed only after the loop, from the
final attempt's exit code alone. -/
theorem C7_retries_before_goto (p : RetryPolicy) (o : Nat → Int)
    (h : StepHandlers)
    (hp : (∃ m d, p = RetryPolicy.for_provider m d)
      ∨ ∃ cfg, p = RetryPolicy.for_command cfg) :
    finalAttempt p o ≤ p.max_retries
    ∧ (p.max_retries = 0 → finalAttempt p o = 0)
    ∧ (∀ i, i < finalAttempt p o → o i = 1 ∨ o i = 124)
    ∧ stepGotoDecision p o h = handleControlFlowGoto h (o (finalAttempt p o)) := by
  refine ⟨finalAttemptFrom_le p o 0 (Nat.zero_le _), ?_, ?_, rfl⟩
  · intro h0
    rw [finalAttempt, finalAttemptFrom, if_neg]
    simp [should_retry, h0]
  · intro i hi
    have hr := finalAttemptFrom_retried p o 0 i (Nat.zero_le _) hi
    have hmem : o i ∈ p.retryable_codes := by
      simp [should_retry] at hr
      exact hr.2
    rcases hp with ⟨m, d, rfl⟩ | ⟨cfg, rfl⟩
    · simpa [RetryPolicy.for_provider] using hmem
    · match cfg with
      | none => simp [RetryPolicy.for_command] at hmem
      | some (.intConfig 0) => simp [RetryPolicy.for_command] at hmem
      | some (.intConfig (n + 1)) => simpa [RetryPolicy.for_command] using hmem
      | some (.dictConfig m d) => simpa [RetryPolicy.for_command] using hmem

/-- Witness for C7: a command policy with `max = 2`, whose first attempt
exits 1 and second attempt exits 0. -/
theorem C7_retries_before_goto_witness :
    finalAttempt (RetryPolicy.for_command (some (.dictConfig 2 0)))
        (fun i => if i = 0 then 1 else 0)
      ≤ (RetryPolicy.for_command (some (.dictConfig 2 0))).max_retries
    ∧ ((RetryPolicy.for_command (some (.dictConfig 2 0))).max_retries = 0 →
        finalAttempt (RetryPolicy.for_command (some (.dictConfig 2 0)))
          (fun i => if i = 0 then 1 else 0) = 0)
    ∧ (∀ i, i < finalAttempt (RetryPolicy.for_command (some (.dictConfig 2 0)))
          (fun i => if i = 0 then 1 else 0) →
        (if i = 0 then (1 : Int) else 0) = 1 ∨ (if i = 0 then (1 : Int) else 0) = 124)
    ∧ stepGotoDecision (RetryPolicy.for_command (some (.dictConfig 2 0)))
        (fun i => if i = 0 then 1 else 0) ⟨none, some "Fix", none⟩
      = handleControlFlowGoto ⟨none, some "Fix", none⟩
          ((fun i => if i = 0 then (1 : Int) else 0)
            (finalAttempt (RetryPolicy.for_command (some (.dictConfig 2 0)))
              (fun i => if i = 0 then 1 else 0))) :=
  C7_retries_before_goto (RetryPolicy.for_command (some (.dictConfig 2 0)))
    (fun i => if i = 0 then 1 else 0) ⟨none, some "Fix", none⟩
    (Or.inr ⟨some (.dictConfig 2 0), rfl⟩)

/-! ## C4 — missing secrets gate -/

theorem envGet_envSet_same (e : Env) (k v : String) :
    envGet? (envSet e k v) k = some v := by
  induction e with
  | nil => simp [envSet, envGet?]
  | cons p rest ih =>
    by_cases hp : p.1 = k
    · simp [envSet, envGet?, hp]
    · simp [envSet, envGet?, hp, ih]

theorem envGet_envSet_other (e : Env) (k k₂ v : String) (hne : k ≠ k₂) :
    envGet? (envSet e k₂ v) k = envGet? e k := by
  have hne2 : k₂ ≠ k := Ne.symm hne
  induction e with
  | nil => simp [envSet, envGet?, hne2]
  | cons p rest ih =>
    by_cases hp : p.1 = k₂
    · have hpk : p.1 ≠ k := by rw [hp]; exact hne2
      simp [envSet, envGet?, hp, hpk, hne2]
    · by_cases hk : p.1 = k
      · simp [envSet, envGet?, hp, hk, hne]
      · simp [envSet, envGet?, hp, hk, ih]

theorem declared_fold_missing (osEnv : Env) (declared : List String) :
    ∀ (m0 : List String) (s0 : List (String × String)) (e0 : Env),
      (declared.foldl (declaredStep osEnv) (m0, s0, e0)).1
        = m0 ++ declared.filter (fun n => (envGet? osEnv n).isNone) := by
  induction declared with
  | nil => simp
  | cons n rest ih =>
    intro m0 s0 e0
    cases hn : envGet? osEnv n with
    | some v => simp [List.filter_cons, hn, declaredStep, ih]
    | none => simp [List.filter_cons, hn, declaredStep, ih]

theorem declared_fold_child (osEnv : Env) (declared : List String)
    (name v : String) (hv : envGet? osEnv name = some v) :
    ∀ (m0 : List String) (s0 : List (String × String)) (e0 : Env),
      envGet? e0 name = some v →
      envGet? (declared.foldl (declaredStep osEnv) (m0, s0, e0)).2.2 name = some v := by
  induction declared with
  | nil => intro _ _ _ h0; exact h0
  | cons n rest ih =>
    intro m0 s0 e0 h0
    cases hn : envGet? osEnv n with
    | some v2 =>
      by_cases hname : n = name
      · subst hname
        rw [hn] at hv
        cases hv
        simp only [List.foldl_cons, declaredStep, hn]
        exact ih _ _ _ (envGet_envSet_same _ _ _)
      · simp only [List.foldl_cons, declaredStep, hn]
        refine ih _ _ _ ?_
        rw [envGet_envSet_other _ _ _ _ (fun hc => hname hc.symm)]
        exact h0
    | none =>
      simp only [List.foldl_cons, declaredStep, hn]
      exact ih _ _ _ h0

theorem stepenv_fold_child (declared : List String)
    (stepEnv : List (String × String)) (name v : String)
    (hout : name ∉ stepEnv.map Prod.fst) :
    ∀ (s0 : List (String × String)) (e0 : Env),
      envGet? e0 name = some v →
      envGet? (stepEnv.foldl (stepEnvStep declared) (s0, e0)).2 name = some v := by
  induction stepEnv with
  | nil => intro _ _ h0; exact h0
  | cons kv rest ih =>
    intro s0 e0 h0
    simp only [List.map_cons, List.mem_cons] at hout
    push_neg at hout
    simp only [List.foldl_cons, stepEnvStep]
    refine ih hout.2 _ _ ?_
    rw [envGet_envSet_other _ _ _ _ hout.1]
    exact h0

/-- C4 (amended): for every step with declared secrets, each declared name
present in the process environment (an empty string counts as present) is
copied into the child environment (step-env overrides excepted); if any
declared name is absent, the step fails before spawning with error kind
`missing_secrets` and exit code 2, carrying the missing names **in
declaration order** (not sorted); otherwise a subprocess is spawned. -/
theorem C4_missing_secrets_gate (osEnv : Env) (declared : List String)
    (stepEnv : List (String × String)) :
    (∀ name v, name ∈ declared → envGet? osEnv name = some v →
      name ∉ stepEnv.map Prod.fst →
      envGet? ((resolve_secrets osEnv declared stepEnv).1.child_env) name = some v)
    ∧ (resolve_secrets osEnv declared stepEnv).1.missing_secrets
        = declared.filter (fun n => (envGet? osEnv n).isNone)
    ∧ ((∃ name, name ∈ declared ∧ envGet? osEnv name = none) →
        execute_command_gate osEnv declared stepEnv
          = { exit_code := 2, error_type := some "missing_secrets",
              missing_list := declared.filter (fun n => (envGet? osEnv n).isNone),
              spawned := false })
    ∧ ((∀ name, name ∈ declared → (envGet? osEnv name).isSome) →
        (execute_command_gate osEnv declared stepEnv).spawned = true) := by
  have hmiss : (resolve_secrets osEnv declared stepEnv).1.missing_secrets
      = declared.filter (fun n => (envGet? osEnv n).isNone) := by
    simp [resolve_secrets, declared_fold_missing]
  refine ⟨?_, hmiss, ?_, ?_⟩
  · intro name v hmem hv hout
    simp only [resolve_secrets]
    exact stepenv_fold_child declared stepEnv name v hout _ _
      (declared_fold_child osEnv declared name v hv _ _ _ hv)
  · rintro ⟨name, hmem, habs⟩
    have hfne : declared.filter (fun n => (envGet? osEnv n).isNone) ≠ [] := by
      intro hc
      have := List.filter_eq_nil_iff.mp hc name hmem
      simp [habs] at this
    have hne : (resolve_secrets osEnv declared stepEnv).1.missing_secrets ≠ [] := by
      rw [hmiss]; exact hfne
    simp only [execute_command_gate, hmiss, if_pos hfne]
  · intro hall
    have hnil : (resolve_secrets osEnv declared stepEnv).1.missing_secrets = [] := by
      rw [hmiss]
      apply List.filter_eq_nil_iff.mpr
      intro n hn
      have := hall n hn
      cases h : envGet? osEnv n with
      | some _ => simp [h]
      | none => rw [h] at this; simp at this
    simp [execute_command_gate, hnil]

/-- Witness for C4 at a concrete environment: one present (empty-valued) and
no missing secrets. -/
theorem C4_missing_secrets_gate_witness :
    (∀ name v, name ∈ ["A_TOKEN"] → envGet? [("A_TOKEN", "")] name = some v →
      name ∉ ([] : List (String × String)).map Prod.fst →
      envGet? ((resolve_secrets [("A_TOKEN", "")] ["A_TOKEN"] []).1.child_env) name = some v)
    ∧ (resolve_secrets [("A_TOKEN", "")] ["A_TOKEN"] []).1.missing_secrets
        = ["A_TOKEN"].filter (fun n => (envGet? [("A_TOKEN", "")] n).isNone)
    ∧ ((∃ name, name ∈ ["A_TOKEN"] ∧ envGet? [("A_TOKEN", "")] name = none) →
        execute_command_gate [("A_TOKEN", "")] ["A_TOKEN"] []
          = { exit_code := 2, error_type := some "missing_secrets",
              missing_list := ["A_TOKEN"].filter
                (fun n => (envGet? [("A_TOKEN", "")] n).isNone),
              spawned := false })
    ∧ ((∀ name, name ∈ ["A_TOKEN"] → (envGet? [("A_TOKEN", "")] name).isSome) →
        (execute_command_gate [("A_TOKEN", "")] ["A_TOKEN"] []).spawned = true) :=
  C4_missing_secrets_gate [("A_TOKEN", "")] ["A_TOKEN"] []

/-- Counterexample to C4 as stated: with secrets declared as
`["ZZZ", "AAA"]` and both absent from the process environment, the recorded
missing list is `["ZZZ", "AAA"]` — declaration order, not the sorted list
`["AAA", "ZZZ"]` the claim requires. -/
theorem C4_missing_list_not_sorted :
    (execute_command_gate [] ["ZZZ", "AAA"] []).exit_code = 2
    ∧ (execute_command_gate [] ["ZZZ", "AAA"] []).missing_list = ["ZZZ", "AAA"]
    ∧ sortStrings ["ZZZ", "AAA"] = ["AAA", "ZZZ"]
    ∧ (execute_command_gate [] ["ZZZ", "AAA"] []).missing_list
        ≠ sortStrings ["ZZZ", "AAA"] := by
  refine ⟨rfl, rfl, by decide, by decide⟩

/-! ## C5/C6 — output capture -/

theorem utf8Len_cons (c : Char) (l : List Char) :
    utf8Len (c :: l) = charWidth c + utf8Len l := by
  simp [utf8Len]

theorem utf8Len_replicate_ascii (n : Nat) :
    utf8Len (List.replicate n 'a') = n := by
  induction n with
  | zero => rfl
  | succ k ih =>
    rw [List.replicate_succ, utf8Len_cons, ih]
    have h1 : charWidth 'a' = 1 := rfl
    omega

theorem utf8Len_shrinkToLimit (limit : Nat) (s : List Char) :
    utf8Len (shrinkToLimit limit s) ≤ limit := by
  rw [shrinkToLimit]
  by_cases h : utf8Len s ≤ limit
  · rwa [if_pos h]
  · rw [if_neg h]
    exact utf8Len_shrinkToLimit limit s.dropLast
termination_by s.length
decreasing_by
  have hne : s ≠ [] := by
    rintro rfl
    simp [utf8Len] at h
  cases s with
  | nil => exact absurd rfl hne
  | cons a as => simp [List.length_dropLast]

theorem shrinkToLimit_isPrefix (limit : Nat) (s : List Char) :
    shrinkToLimit limit s <+: s := by
  rw [shrinkToLimit]
  by_cases h : utf8Len s ≤ limit
  · rw [if_pos h]
  · rw [if_neg h]
    refine (shrinkToLimit_isPrefix limit s.dropLast).trans ?_
    rw [List.dropLast_eq_take]
    exact List.take_prefix _ _
termination_by s.length
decreasing_by
  have hne : s ≠ [] := by
    rintro rfl
    simp [utf8Len] at h
  cases s with
  | nil => exact absurd rfl hne
  | cons a as => simp [List.length_dropLast]

/-- C6: in text mode, a stdout whose UTF-8 size exceeds 8 KiB is recorded as
a character prefix of the decoded text (so no multi-byte character is split)
of encoded size at most 8 KiB, with `truncated = true` and the full raw
stdout spilled to `logs/<step>.stdout`; and whenever the step specifies an
`output_file`, the full raw stdout is teed to it regardless of capture mode,
outcome, or parse errors. -/
theorem C6_text_capture_caps (jsonLoads : List Char → Option Json)
    (stdout stderr : List Char) (output_file : Option String) (allow : Bool)
    (exit_code : Int) (hbig : TEXT_LIMIT_BYTES < utf8Len stdout) :
    (∃ out,
      (capture jsonLoads stdout stderr "text" output_file allow exit_code).1.output
          = some out
        ∧ out <+: stdout ∧ utf8Len out ≤ TEXT_LIMIT_BYTES)
    ∧ (capture jsonLoads stdout stderr "text" output_file allow exit_code).1.truncated
        = true
    ∧ (capture jsonLoads stdout stderr "text" output_file allow exit_code).2.stdoutLog
        = some stdout
    ∧ (∀ mode allow₂ exit₂ f,
        (capture jsonLoads stdout stderr mode (some f) allow₂ exit₂).2.outputFileContent
          = some stdout) := by
  have hmode : (capture jsonLoads stdout stderr "text" output_file allow exit_code)
      = ((capture_text stdout exit_code).1,
         { stdoutLog := (capture_text stdout exit_code).2,
           stderrLog := if stderr ≠ [] then some stderr else none,
           outputFileContent := if output_file.isSome then some stdout else none }) := by
    simp [capture]
  have htext : capture_text stdout exit_code
      = ({ mode := "text",
           output := some (shrinkToLimit TEXT_LIMIT_BYTES (stdout.take TEXT_LIMIT_BYTES)),
           lines := none, json_data := none, truncated := true,
           exit_code := exit_code, error_type := none, debug_parse_error := false },
         some stdout) := by
    simp [capture_text, if_pos hbig]
  refine ⟨⟨shrinkToLimit TEXT_LIMIT_BYTES (stdout.take TEXT_LIMIT_BYTES), ?_, ?_, ?_⟩, ?_, ?_, ?_⟩
  · rw [hmode, htext]
  · exact (shrinkToLimit_isPrefix _ _).trans (List.take_prefix _ _)
  · exact utf8Len_shrinkToLimit _ _
  · rw [hmode, htext]
  · rw [hmode, htext]
  · intro mode allow₂ exit₂ f
    simp [capture]

/-- Witness for C6: a 8193-byte ASCII stdout. -/
theorem C6_text_capture_caps_witness :
    (∃ out,
      (capture (fun _ => none) (List.replicate 8193 'a') [] "text" none false 0).1.output
          = some out
        ∧ out <+: List.replicate 8193 'a' ∧ utf8Len out ≤ TEXT_LIMIT_BYTES)
    ∧ (capture (fun _ => none) (List.replicate 8193 'a') [] "text" none false 0).1.truncated
        = true
    ∧ (capture (fun _ => none) (List.replicate 8193 'a') [] "text" none false 0).2.stdoutLog
        = some (List.replicate 8193 'a')
    ∧ (∀ mode allow₂ exit₂ f,
        (capture (fun _ => none) (List.replicate 8193 'a') [] mode (some f) allow₂
            exit₂).2.outputFileContent
          = some (List.replicate 8193 'a')) :=
  C6_text_capture_caps (fun _ => none) (List.replicate 8193 'a') [] none false 0
    (by rw [utf8Len_replicate_ascii]; decide)

/-- C5 (amended): in JSON capture mode, a stdout over 1 MiB with
`allow_parse_error = false` yields exit code 2 with error kind
`json_overflow`; with `allow_parse_error = true`, a buffer overflow or a
parse failure yields a successful capture (exit 0) whose `output` is the
(possibly truncated) raw text and a `debug.json_parse_error` record — but
the raw stdout is spilled to the log file only when the text exceeds the
8 KiB text limit (always the case on overflow, not on a small parse
failure). -/
theorem C5_json_capture_modes (jsonLoads : List Char → Option Json)
    (text : List Char) (exit_code : Int) :
    (JSON_BUFFER_LIMIT < utf8Len text →
      (capture_json jsonLoads text false exit_code).1.exit_code = 2
      ∧ (capture_json jsonLoads text false exit_code).1.error_type
          = some "json_overflow")
    ∧ (JSON_BUFFER_LIMIT < utf8Len text →
      (capture_json jsonLoads text true exit_code).1.exit_code = 0
      ∧ (capture_json jsonLoads text true exit_code).1.debug_parse_error = true
      ∧ (∃ out, (capture_json jsonLoads text true exit_code).1.output = some out
          ∧ out <+: text ∧ utf8Len out ≤ TEXT_LIMIT_BYTES)
      ∧ (capture_json jsonLoads text true exit_code).2 = some text)
    ∧ (utf8Len text ≤ JSON_BUFFER_LIMIT → jsonLoads text = none →
      (capture_json jsonLoads text true exit_code).1.exit_code = 0
      ∧ (capture_json jsonLoads text true exit_code).1.debug_parse_error = true
      ∧ (∃ out, (capture_json jsonLoads text true exit_code).1.output = some out
          ∧ out <+: text ∧ utf8Len out ≤ TEXT_LIMIT_BYTES)
      ∧ (capture_json jsonLoads text true exit_code).2
          = (if TEXT_LIMIT_BYTES < utf8Len text then some text else none)) := by
  refine ⟨?_, ?_, ?_⟩
  · intro hbig
    simp [capture_json, if_pos hbig]
  · intro hbig
    have h2 : TEXT_LIMIT_BYTES < utf8Len text := by
      have : TEXT_LIMIT_BYTES < JSON_BUFFER_LIMIT := by decide
      omega
    refine ⟨?_, ?_, ⟨shrinkToLimit TEXT_LIMIT_BYTES (text.take TEXT_LIMIT_BYTES), ?_, ?_, ?_⟩, ?_⟩ <;>
      simp [capture_json, if_pos hbig,
        (shrinkToLimit_isPrefix TEXT_LIMIT_BYTES (text.take TEXT_LIMIT_BYTES)).trans
          (List.take_prefix _ _),
        utf8Len_shrinkToLimit]
  · intro hsmall hparse
    have hnot : ¬ JSON_BUFFER_LIMIT < utf8Len text := by omega
    by_cases h2 : TEXT_LIMIT_BYTES < utf8Len text
    · refine ⟨?_, ?_,
        ⟨shrinkToLimit TEXT_LIMIT_BYTES (text.take TEXT_LIMIT_BYTES), ?_, ?_, ?_⟩, ?_⟩
      · simp [capture_json, hnot, hparse, h2]
      · simp [capture_json, hnot, hparse, h2]
      · simp [capture_json, hnot, hparse, h2]
      · exact (shrinkToLimit_isPrefix TEXT_LIMIT_BYTES (text.take TEXT_LIMIT_BYTES)).trans
          (List.take_prefix _ _)
      · exact utf8Len_shrinkToLimit _ _
      · simp [capture_json, hnot, hparse, h2]
    · refine ⟨?_, ?_, ⟨text, ?_, ?_, ?_⟩, ?_⟩
      · simp [capture_json, hnot, hparse, h2]
      · simp [capture_json, hnot, hparse, h2]
      · simp [capture_json, hnot, hparse, h2]
      · exact List.prefix_refl text
      · omega
      · simp [capture_json, hnot, hparse, h2]

/-- Witness for C5 at a concrete small invalid-JSON stdout. -/
theorem C5_json_capture_modes_witness :
    ((JSON_BUFFER_LIMIT < utf8Len ("not json".data) →
      (capture_json (fun _ => none) ("not json".data) false 0).1.exit_code = 2
      ∧ (capture_json (fun _ => none) ("not json".data) false 0).1.error_type
          = some "json_overflow")
    ∧ (JSON_BUFFER_LIMIT < utf8Len ("not json".data) →
      (capture_json (fun _ => none) ("not json".data) true 0).1.exit_code = 0
      ∧ (capture_json (fun _ => none) ("not json".data) true 0).1.debug_parse_error = true
      ∧ (∃ out, (capture_json (fun _ => none) ("not json".data) true 0).1.output = some out
          ∧ out <+: "not json".data ∧ utf8Len out ≤ TEXT_LIMIT_BYTES)
      ∧ (capture_json (fun _ => none) ("not json".data) true 0).2 = some ("not json".data))
    ∧ (utf8Len ("not json".data) ≤ JSON_BUFFER_LIMIT →
        (fun (_ : List Char) => (none : Option Json)) ("not json".data) = none →
      (capture_json (fun _ => none) ("not json".data) true 0).1.exit_code = 0
      ∧ (capture_json (fun _ => none) ("not json".data) true 0).1.debug_parse_error = true
      ∧ (∃ out, (capture_json (fun _ => none) ("not json".data) true 0).1.output = some out
          ∧ out <+: "not json".data ∧ utf8Len out ≤ TEXT_LIMIT_BYTES)
      ∧ (capture_json (fun _ => none) ("not json".data) true 0).2
          = (if TEXT_LIMIT_BYTES < utf8Len ("not json".data) then some ("not json".data)
             else none))) :=
  C5_json_capture_modes (fun _ => none) ("not json".data) 0

/-- Counterexample to C5 as stated: with `allow_parse_error = true` and a
small stdout (`"not json"`, 8 bytes) that fails to parse, the capture
succeeds with exit 0, records `debug.json_parse_error`, keeps the full raw
text as `output` — but nothing is spilled to the log file, contradicting the
claim that "the full raw stdout [is] spilled to the log file" on every parse
failure. -/
theorem C5_no_spill_on_small_parse_error :
    (capture_json (fun _ => none) ("not json".data) true 0).1.exit_code = 0
    ∧ (capture_json (fun _ => none) ("not json".data) true 0).1.debug_parse_error = true
    ∧ (capture_json (fun _ => none) ("not json".data) true 0).1.output
        = some ("not json".data)
    ∧ (capture_json (fun _ => none) ("not json".data) true 0).2 = none := by
  refine ⟨?_, ?_, ?_, ?_⟩ <;> decide

/-! ## C10 — undefined variables in `exists` / `not_exists` conditions -/

/-- C10: when substituting the pattern of an `exists` / `not_exists`
condition fails on undefined variables, the evaluator treats `exists` as
false without consulting the file system (the conclusion holds for **every**
glob and realpath oracle), so `when.not_exists` evaluates to true (the
guarded step runs) while `when.exists` evaluates to false (the step is
skipped). -/
theorem C10_undefined_condition_semantics (fsGlob : String → List String)
    (realPath : String → String) (workspace : String) (vars : JFields)
    (pattern : String)
    (herr : ∃ errs, (substitute vars (.str pattern)).1 = .error errs) :
    evaluate_exists fsGlob realPath workspace vars pattern = .ok false
    ∧ evaluate_not_exists fsGlob realPath workspace vars pattern = .ok true := by
  obtain ⟨errs, herr⟩ := herr
  have hex : evaluate_exists fsGlob realPath workspace vars pattern = .ok false := by
    simp only [evaluate_exists, herr]
  refine ⟨hex, ?_⟩
  simp only [evaluate_not_exists, hex]
  rfl

/-- Witness for C10 at the pattern `${context.missing}` with an empty
variable set and a glob oracle that always reports a match. -/
theorem C10_undefined_condition_semantics_witness :
    evaluate_exists (fun _ => ["hit.txt"]) (fun s => s) "/ws" .nil
        "$\x7bcontext.missing\x7d" = .ok false
    ∧ evaluate_not_exists (fun _ => ["hit.txt"]) (fun s => s) "/ws" .nil
        "$\x7bcontext.missing\x7d" = .ok true :=
  C10_undefined_condition_semantics (fun _ => ["hit.txt"]) (fun s => s) "/ws" .nil
    "$\x7bcontext.missing\x7d" ⟨["context.missing"], rfl⟩

/-! ## C3 — undefined-variable collection in `substitute` -/

/-- C3 (code bug): `VariableSubstitutor.substitute` clears
`self.undefined_vars` at the top of **every** call, including the recursive
per-element calls on a list, so for the argv
`["${context.missing}", "ok"]` the unresolved token recorded for the first
element is wiped by the recursive call on `"ok"` and the call returns
successfully with the token left in place — instead of failing with an
`undefined_variables` error carrying every unresolved token, as the spec,
the function's docstring, and the single-string behaviour (second conjunct)
require. -/
theorem C3_substitute_drops_list_errors :
    (substitute .nil (.arr (.cons (.str "$\x7bcontext.missing\x7d")
        (.cons (.str "ok") .nil)))).1
      = .ok (.arr (.cons (.str "$\x7bcontext.missing\x7d") (.cons (.str "ok") .nil)))
    ∧ (substitute .nil (.str "$\x7bcontext.missing\x7d")).1
      = .error ["context.missing"] :=
  ⟨rfl, rfl⟩

/-! ## Ordering facts about `sortStrings` (Python `sorted`) -/

theorem charsLe_refl (a : List Char) : charsLe a a = true := by
  induction a with
  | nil => rfl
  | cons x xs ih => simp [charsLe, lt_irrefl, ih]

theorem charsLe_total (a b : List Char) :
    charsLe a b = true ∨ charsLe b a = true := by
  induction a generalizing b with
  | nil => exact Or.inl rfl
  | cons x xs ih =>
    cases b with
    | nil => exact Or.inr rfl
    | cons y ys =>
      by_cases hxy : x < y
      · exact Or.inl (by simp [charsLe, hxy])
      · by_cases hyx : y < x
        · exact Or.inr (by simp [charsLe, hyx, hxy])
        · rcases ih ys with h | h
          · exact Or.inl (by simp [charsLe, hxy, hyx, h])
          · exact Or.inr (by simp [charsLe, hxy, hyx, h])

theorem charsLe_trans (a b c : List Char) (hab : charsLe a b = true)
    (hbc : charsLe b c = true) : charsLe a c = true := by
  induction a generalizing b c with
  | nil => rfl
  | cons x xs ih =>
    cases b with
    | nil => simp [charsLe] at hab
    | cons y ys =>
      cases c with
      | nil => simp [charsLe] at hbc
      | cons z zs =>
        simp only [charsLe] at hab hbc ⊢
        by_cases hxy : x < y
        · by_cases hyz : y < z
          · simp [lt_trans hxy hyz]
          · by_cases hzy : z < y
            · simp [hyz, hzy] at hbc
            · have hy : y = z := le_antisymm (not_lt.mp hzy) (not_lt.mp hyz)
              subst hy
              simp [hxy]
        · by_cases hyx : y < x
          · simp [hxy, hyx] at hab
          · have hx : x = y := le_antisymm (not_lt.mp hyx) (not_lt.mp hxy)
            subst hx
            simp only [if_neg (lt_irrefl x)] at hab
            by_cases hxz : x < z
            · simp [hxz]
            · by_cases hzx : z < x
              · simp [hxz, hzx] at hbc
              · simp only [if_neg hxz, if_neg hzx] at hbc ⊢
                exact ih ys zs hab hbc

theorem strLeB_refl (a : String) : strLeB a a = true := charsLe_refl a.data

theorem strLeB_total (a b : String) : strLeB a b = true ∨ strLeB b a = true :=
  charsLe_total a.data b.data

theorem strLeB_trans (a b c : String) (hab : strLeB a b = true)
    (hbc : strLeB b c = true) : strLeB a c = true :=
  charsLe_trans a.data b.data c.data hab hbc

theorem mem_insertByLe {α : Type} (le : α → α → Bool) (x y : α) (l : List α) :
    y ∈ insertByLe le x l ↔ y = x ∨ y ∈ l := by
  induction l with
  | nil => simp [insertByLe]
  | cons z zs ih =>
    by_cases h : le x z = true
    · simp [insertByLe, h]
    · simp [insertByLe, h, ih]
      tauto

theorem perm_insertByLe {α : Type} (le : α → α → Bool) (x : α) (l : List α) :
    (insertByLe le x l).Perm (x :: l) := by
  induction l with
  | nil => simp [insertByLe]
  | cons z zs ih =>
    by_cases h : le x z = true
    · simp [insertByLe, h]
    · simp only [insertByLe, if_neg h]
      exact (List.Perm.cons z ih).trans (List.Perm.swap x z zs)

theorem perm_sortByLe {α : Type} (le : α → α → Bool) (l : List α) :
    (sortByLe le l).Perm l := by
  induction l with
  | nil => simp [sortByLe]
  | cons x xs ih =>
    have : sortByLe le (x :: xs) = insertByLe le x (sortByLe le xs) := rfl
    rw [this]
    exact (perm_insertByLe le x (sortByLe le xs)).trans (List.Perm.cons x ih)

theorem perm_sortStrings (l : List String) : (sortStrings l).Perm l :=
  perm_sortByLe strLeB l

theorem mem_sortStrings (x : String) (l : List String) :
    x ∈ sortStrings l ↔ x ∈ l :=
  (perm_sortStrings l).mem_iff

theorem pairwise_insertByLe (x : String) : ∀ (l : List String),
    List.Pairwise (fun a b => strLeB a b = true) l →
    List.Pairwise (fun a b => strLeB a b = true) (insertByLe strLeB x l) := by
  intro l
  induction l with
  | nil => intro _; simp [insertByLe]
  | cons y ys ih =>
    intro hs
    obtain ⟨hy, hys⟩ := List.pairwise_cons.mp hs
    by_cases h : strLeB x y = true
    · rw [insertByLe, if_pos h]
      refine List.Pairwise.cons ?_ (List.Pairwise.cons hy hys)
      intro z hz
      rcases List.mem_cons.mp hz with rfl | hz2
      · exact h
      · exact strLeB_trans x y z h (hy z hz2)
    · rw [insertByLe, if_neg h]
      refine List.Pairwise.cons ?_ (ih hys)
      intro z hz
      rcases (mem_insertByLe strLeB x z ys).mp hz with hz1 | hz2
      · subst hz1
        rcases strLeB_total z y with h2 | h2
        · exact absurd h2 h
        · exact h2
      · exact hy z hz2

theorem pairwise_sortStrings (l : List String) :
    List.Pairwise (fun a b => strLeB a b = true) (sortStrings l) := by
  induction l with
  | nil => simp [sortStrings, sortByLe]
  | cons x xs ih =>
    have : sortStrings (x :: xs) = insertByLe strLeB x (sortStrings xs) := rfl
    rw [this]
    exact pairwise_insertByLe x (sortStrings xs) ih

/-! ## C8 — backup rotation and repair order -/

theorem map_fst_filter_pred (bs : List (String × FileContent)) (q : String → Bool) :
    (bs.filter (fun p => q p.1)).map Prod.fst = (bs.map Prod.fst).filter q := by
  induction bs with
  | nil => rfl
  | cons p rest ih =>
    by_cases h : q p.1 = true
    · simp [List.filter_cons, h, ih]
    · simp [List.filter_cons, h, ih]

theorem sortStrings_length (l : List String) : (sortStrings l).length = l.length :=
  (perm_sortStrings l).length_eq

theorem rotateBackups_names (bs : List (String × FileContent))
    (h3 : 3 < bs.length) :
    (rotateBackups bs).map Prod.fst
      = (bs.map Prod.fst).filter
          (fun n => n ∉ (sortStrings (bs.map Prod.fst)).take
            ((sortStrings (bs.map Prod.fst)).length - 3)) := by
  have hlen : (sortStrings (bs.map Prod.fst)).length = bs.length := by
    rw [sortStrings_length, List.length_map]
  rw [rotateBackups]
  rw [if_pos (by rw [hlen]; exact h3)]
  exact map_fst_filter_pred bs
    (fun n => decide (n ∉ (sortStrings (bs.map Prod.fst)).take
      ((sortStrings (bs.map Prod.fst)).length - 3)))

theorem rotateBackups_length (bs : List (String × FileContent))
    (hnodup : (bs.map Prod.fst).Nodup) :
    (rotateBackups bs).length ≤ 3 := by
  by_cases h3 : 3 < bs.length
  · have hnames := rotateBackups_names bs h3
    have hlen : (rotateBackups bs).length = ((rotateBackups bs).map Prod.fst).length := by
      rw [List.length_map]
    rw [hlen, hnames]
    set names := bs.map Prod.fst with hnd
    set sorted := sortStrings names with hsd
    set doomed := sorted.take (sorted.length - 3) with hdd
    have hperm : sorted.Perm names := perm_sortStrings names
    have hsortlen : sorted.length = bs.length := by
      rw [hperm.length_eq, hnd, List.length_map]
    have hfperm : (names.filter (fun n => n ∉ doomed)).Perm
        (sorted.filter (fun n => n ∉ doomed)) :=
      (hperm.filter (fun n => n ∉ doomed)).symm
    rw [hfperm.length_eq]
    have hsplit : doomed ++ sorted.drop (sorted.length - 3) = sorted :=
      List.take_append_drop _ _
    have hnodup2 : sorted.Nodup := (hperm.nodup_iff).mpr hnodup
    rw [← hsplit, List.filter_append]
    have h1 : doomed.filter (fun n => n ∉ doomed) = [] := by
      apply List.filter_eq_nil_iff.mpr
      intro a ha
      simp [ha]
    have h2 : (sorted.drop (sorted.length - 3)).filter (fun n => n ∉ doomed)
        = sorted.drop (sorted.length - 3) := by
      apply List.filter_eq_self.mpr
      intro a ha
      rw [← hsplit] at hnodup2
      have hdisj := (List.nodup_append.mp hnodup2).2.2
      simp only [decide_eq_true_eq]
      intro hin
      exact hdisj hin ha
    rw [h1, h2, List.nil_append, List.length_drop]
    omega
  · rw [rotateBackups]
    rw [if_neg (by rw [sortStrings_length, List.length_map]; omega)]
    have : bs.length ≤ 3 := by omega
    exact this

theorem rotateBackups_keeps_greatest (bs : List (String × FileContent)) :
    ∀ x ∈ bs, x.1 ∉ (rotateBackups bs).map Prod.fst →
      ∀ y ∈ rotateBackups bs, strLeB x.1 y.1 = true := by
  intro x hx hxout y hy
  by_cases h3 : 3 < bs.length
  · have hnames := rotateBackups_names bs h3
    set names := bs.map Prod.fst with hnd
    set sorted := sortStrings names with hsd
    set doomed := sorted.take (sorted.length - 3) with hdd
    have hperm : sorted.Perm names := perm_sortStrings names
    have hxnames : x.1 ∈ names := List.mem_map_of_mem Prod.fst hx
    have hxdoomed : x.1 ∈ doomed := by
      by_contra hc
      apply hxout
      rw [hnames]
      rw [List.mem_filter]
      exact ⟨hxnames, by simpa using hc⟩
    have hyin : y.1 ∈ (rotateBackups bs).map Prod.fst := List.mem_map_of_mem Prod.fst hy
    rw [hnames, List.mem_filter] at hyin
    obtain ⟨hynames, hynot⟩ := hyin
    have hydrop : y.1 ∈ sorted.drop (sorted.length - 3) := by
      have : y.1 ∈ sorted := hperm.mem_iff.mpr hynames
      rw [← List.take_append_drop (sorted.length - 3) sorted] at this
      rcases List.mem_append.mp this with h | h
      · exact absurd h (by simpa using hynot)
      · exact h
    have hpw : List.Pairwise (fun a b => strLeB a b = true) sorted :=
      pairwise_sortStrings names
    rw [← List.take_append_drop (sorted.length - 3) sorted] at hpw
    exact (List.pairwise_append.mp hpw).2.2 x.1 hxdoomed y.1 hydrop
  · rw [rotateBackups] at hxout
    rw [if_neg (by rw [sortStrings_length, List.length_map]; omega)] at hxout
    exact absurd (List.mem_map_of_mem Prod.fst hx) hxout

theorem setFile_names_nodup (bs : List (String × FileContent)) (name : String)
    (c : FileContent) (h : (bs.map Prod.fst).Nodup) :
    ((setFile bs name c).map Prod.fst).Nodup := by
  rw [setFile, List.map_append]
  have hmf : (bs.filter (fun p => p.1 ≠ name)).map Prod.fst
      = (bs.map Prod.fst).filter (fun n => n ≠ name) :=
    map_fst_filter_pred bs (fun n => n ≠ name)
  rw [hmf]
  apply List.nodup_append.mpr
  refine ⟨h.filter _, by simp, ?_⟩
  intro a ha
  have := (List.mem_filter.mp ha).2
  simp only [List.map_cons, List.map_nil, List.mem_singleton]
  intro hc
  subst hc
  simp at this

theorem attemptRepairGo_ok_spec (d : RunDir) :
    ∀ (order : List String) (n : String) (st : RunState),
    attemptRepairGo d order = some (n, st) →
    ∃ pre post, order = pre ++ n :: post
      ∧ (lookupFile d.backups n).bind parseStateFile = some st
      ∧ ∀ m ∈ pre, (lookupFile d.backups m).bind parseStateFile = none := by
  intro order
  induction order with
  | nil =>
    intro n st h
    simp [attemptRepairGo] at h
  | cons k rest ih =>
    intro n st h
    cases hk : (lookupFile d.backups k).bind parseStateFile with
    | some st2 =>
      simp only [attemptRepairGo, hk] at h
      obtain ⟨rfl, rfl⟩ : k = n ∧ st2 = st := by
        constructor <;> [exact congrArg Prod.fst (Option.some_injective _ h);
          exact congrArg Prod.snd (Option.some_injective _ h)]
      exact ⟨[], rest, rfl, hk, by simp⟩
    | none =>
      simp only [attemptRepairGo, hk] at h
      obtain ⟨pre, post, rfl, hok, hpre⟩ := ih n st h
      refine ⟨k :: pre, post, rfl, hok, ?_⟩
      intro m hm
      rcases List.mem_cons.mp hm with rfl | hm2
      · exact hk
      · exact hpre m hm2

theorem attemptRepairGo_none_spec (d : RunDir) :
    ∀ (order : List String), attemptRepairGo d order = none →
    ∀ m ∈ order, (lookupFile d.backups m).bind parseStateFile = none := by
  intro order
  induction order with
  | nil => intro _ m hm; simp at hm
  | cons k rest ih =>
    intro h m hm
    cases hk : (lookupFile d.backups k).bind parseStateFile with
    | some st2 => simp [attemptRepairGo, hk] at h
    | none =>
      simp only [attemptRepairGo, hk] at h
      rcases List.mem_cons.mp hm with rfl | hm2
      · exact hk
      · exact ih h m hm2

theorem mem_repairOrder (d : RunDir) (m : String) :
    m ∈ repairOrder d ↔ m ∈ d.backups.map Prod.fst := by
  rw [repairOrder, List.mem_reverse, mem_sortStrings]

theorem pairwise_repairOrder (d : RunDir) :
    List.Pairwise (fun a b => strLeB b a = true) (repairOrder d) := by
  rw [repairOrder, List.pairwise_reverse]
  exact pairwise_sortStrings _

/-- C8 (amended): with backups enabled, after every step-backup write at
most three `state.json.step_*.bak` files remain, and they are the greatest
surviving file names in **lexicographic order** — every deleted backup's
file name compares `≤` every kept one (not "most recently written":
`_rotate_backups` sorts the glob results by name); `attempt_repair` iterates
the backups in **descending file-name order** (not write order), replaces
`state.json` with the first backup that parses as a valid state document,
and fails only when none parses. -/
theorem C8_rotation_and_repair (d : RunDir) (step : String) (c : FileContent)
    (hsf : d.stateFile = some c)
    (hnodup : (d.backups.map Prod.fst).Nodup) :
    (backup_state true d step).backups.length ≤ 3
    ∧ (∀ x ∈ setFile d.backups (backupFileName step) c,
        x.1 ∉ (backup_state true d step).backups.map Prod.fst →
        ∀ y ∈ (backup_state true d step).backups, strLeB x.1 y.1 = true)
    ∧ (∀ n st d2, attempt_repair d = some (n, st, d2) →
        (lookupFile d.backups n).bind parseStateFile = some st
        ∧ d2.stateFile = lookupFile d.backups n
        ∧ ∀ m ∈ d.backups.map Prod.fst, strLeB m n = false →
            (lookupFile d.backups m).bind parseStateFile = none)
    ∧ (attempt_repair d = none →
        ∀ m ∈ d.backups.map Prod.fst,
          (lookupFile d.backups m).bind parseStateFile = none) := by
  have hbs : (backup_state true d step).backups
      = rotateBackups (setFile d.backups (backupFileName step) c) := by
    simp [backup_state, hsf]
  have hnodup2 := setFile_names_nodup d.backups (backupFileName step) c hnodup
  refine ⟨?_, ?_, ?_, ?_⟩
  · rw [hbs]
    exact rotateBackups_length _ hnodup2
  · rw [hbs]
    exact rotateBackups_keeps_greatest _
  · intro n st d2 h
    rw [attempt_repair] at h
    cases hgo : attemptRepairGo d (repairOrder d) with
    | none => rw [hgo] at h; exact absurd h (by simp)
    | some p =>
      rw [hgo] at h
      obtain ⟨n2, st2⟩ := p
      have hn : n2 = n ∧ st2 = st ∧ ({ d with stateFile := lookupFile d.backups n2 } : RunDir) = d2 := by
        simp at h
        exact ⟨h.1, h.2.1, h.2.2⟩
      obtain ⟨rfl, rfl, rfl⟩ := hn
      obtain ⟨pre, post, horder, hok, hpre⟩ := attemptRepairGo_ok_spec d _ _ _ hgo
      refine ⟨hok, rfl, ?_⟩
      intro m hm hmn
      have hmorder : m ∈ repairOrder d := (mem_repairOrder d m).mpr hm
      rw [horder] at hmorder
      rcases List.mem_append.mp hmorder with hmp | hmr
      · exact hpre m hmp
      · rcases List.mem_cons.mp hmr with rfl | hmpost
        · rw [strLeB_refl] at hmn
          exact absurd hmn (by simp)
        · have hpw := pairwise_repairOrder d
          rw [horder] at hpw
          have := ((List.pairwise_append.mp hpw).2.1)
          have hrel := (List.pairwise_cons.mp this).1 m hmpost
          rw [hrel] at hmn
          exact absurd hmn (by simp)
  · intro h m hm
    rw [attempt_repair] at h
    cases hgo : attemptRepairGo d (repairOrder d) with
    | some p => rw [hgo] at h; obtain ⟨n2, st2⟩ := p; exact absurd h (by simp)
    | none =>
      exact attemptRepairGo_none_spec d _ hgo m ((mem_repairOrder d m).mpr hm)

/-- Witness for C8 at a one-backup directory. -/
theorem C8_rotation_and_repair_witness :
    (backup_state true
        ⟨some (.doc (RunState.to_dict sampleState)),
          [(backupFileName "s1", .corrupt)]⟩ "s2").backups.length ≤ 3
    ∧ (∀ x ∈ setFile [(backupFileName "s1", .corrupt)] (backupFileName "s2")
          (.doc (RunState.to_dict sampleState)),
        x.1 ∉ (backup_state true
            ⟨some (.doc (RunState.to_dict sampleState)),
              [(backupFileName "s1", .corrupt)]⟩ "s2").backups.map Prod.fst →
        ∀ y ∈ (backup_state true
            ⟨some (.doc (RunState.to_dict sampleState)),
              [(backupFileName "s1", .corrupt)]⟩ "s2").backups,
          strLeB x.1 y.1 = true)
    ∧ (∀ n st d2, attempt_repair
          ⟨some (.doc (RunState.to_dict sampleState)),
            [(backupFileName "s1", .corrupt)]⟩ = some (n, st, d2) →
        (lookupFile [(backupFileName "s1", .corrupt)] n).bind parseStateFile = some st
        ∧ d2.stateFile = lookupFile [(backupFileName "s1", .corrupt)] n
        ∧ ∀ m ∈ [(backupFileName "s1", FileContent.corrupt)].map Prod.fst,
            strLeB m n = false →
            (lookupFile [(backupFileName "s1", .corrupt)] m).bind parseStateFile = none)
    ∧ (attempt_repair
          ⟨some (.doc (RunState.to_dict sampleState)),
            [(backupFileName "s1", .corrupt)]⟩ = none →
        ∀ m ∈ [(backupFileName "s1", FileContent.corrupt)].map Prod.fst,
          (lookupFile [(backupFileName "s1", .corrupt)] m).bind parseStateFile = none) :=
  C8_rotation_and_repair
    ⟨some (.doc (RunState.to_dict sampleState)), [(backupFileName "s1", .corrupt)]⟩
    "s2" (.doc (RunState.to_dict sampleState)) rfl (by simp)

/-- Counterexample to C8 as stated: writing step backups in the order
`s_c`, `s_b`, `s_a`, `s_d` leaves the files for `s_b`, `s_c`, `s_d` —
the rotation deletes `s_a`'s backup (written third) and keeps `s_c`'s
(written first), because `_rotate_backups` keeps the last three of the
**name-sorted** list, not the three most recently written. -/
theorem C8_rotation_not_write_order :
    ((backup_state true (backup_state true (backup_state true (backup_state true
          ⟨some (.doc (RunState.to_dict sampleState)), []⟩
          "s_c") "s_b") "s_a") "s_d").backups.map Prod.fst
        = [backupFileName "s_c", backupFileName "s_b", backupFileName "s_d"])
    ∧ backupFileName "s_a"
        ∉ ((backup_state true (backup_state true (backup_state true (backup_state true
            ⟨some (.doc (RunState.to_dict sampleState)), []⟩
            "s_c") "s_b") "s_a") "s_d").backups.map Prod.fst)
    ∧ backupFileName "s_c"
        ∈ ((backup_state true (backup_state true (backup_state true (backup_state true
            ⟨some (.doc (RunState.to_dict sampleState)), []⟩
            "s_c") "s_b") "s_a") "s_d").backups.map Prod.fst) := by
  refine ⟨?_, ?_, ?_⟩ <;> decide

/-! ## C9 — symlink escapes in dependency resolution -/

theorem dedupFiles_go_nodup :
    ∀ (l acc : List String), acc.Nodup →
    (l.foldl (fun acc x => if x ∈ acc then acc else acc ++ [x]) acc).Nodup := by
  intro l
  induction l with
  | nil => intro acc h; exact h
  | cons x xs ih =>
    intro acc h
    by_cases hx : x ∈ acc
    · simp only [List.foldl_cons, if_pos hx]
      exact ih acc h
    · simp only [List.foldl_cons, if_neg hx]
      refine ih _ ?_
      rw [List.nodup_append]
      refine ⟨h, by simp, ?_⟩
      intro a ha hax
      simp only [List.mem_singleton] at hax
      subst hax
      exact hx ha

theorem dedupFiles_nodup (l : List String) : (dedupFiles l).Nodup :=
  dedupFiles_go_nodup l [] (by simp)

theorem checkMatches_ok_inside (env : DepsEnv) :
    ∀ (ms rel : List String), checkMatches env ms = .ok rel →
    ∀ m ∈ ms, env.workspace.data.isPrefixOf (env.realPath m).data = true := by
  intro ms
  induction ms with
  | nil =>
    intro rel _ m hm
    simp at hm
  | cons m0 rest ih =>
    intro rel h m hm
    rw [checkMatches] at h
    by_cases h1 : env.workspace.data.isPrefixOf (env.realPath m0).data = true
    · rw [if_neg (not_not_intro h1)] at h
      rcases List.mem_cons.mp hm with rfl | hm2
      · exact h1
      · by_cases h2 : (env.realPath m0).data = env.workspace.data
        · rw [if_pos h2] at h
          cases hr : checkMatches env rest with
          | ok tail => exact ih tail hr m hm2
          | error e =>
            rw [hr] at h
            exact absurd h (by simp)
        · rw [if_neg h2] at h
          by_cases h3 : (env.workspace.data ++ ['/']).isPrefixOf (env.realPath m0).data = true
          · rw [if_neg (not_not_intro h3)] at h
            cases hr : checkMatches env rest with
            | ok tail => exact ih tail hr m hm2
            | error e =>
              rw [hr] at h
              exact absurd h (by simp)
          · rw [if_pos (by simpa using h3)] at h
            exact absurd h (by simp)
    · rw [if_pos (by simpa using h1)] at h
      exact absurd h (by simp)

theorem resolve_patterns_ok_safety (env : DepsEnv) (vars : List (String × String))
    (required : Bool) :
    ∀ (pats files missing : List String),
    resolve_patterns env pats vars required = .ok (files, missing) →
    ∀ pat ∈ pats,
      validate_path_safety (substituteVarsSimple pat vars) = none
      ∧ ∀ m ∈ env.globMatches (env.workspace ++ "/" ++ substituteVarsSimple pat vars),
          env.workspace.data.isPrefixOf (env.realPath m).data = true := by
  intro pats
  induction pats with
  | nil =>
    intro files missing _ pat hpat
    simp at hpat
  | cons p rest ih =>
    intro files missing h pat hpat
    rw [resolve_patterns] at h
    cases hv : validate_path_safety (substituteVarsSimple p vars) with
    | some msg =>
      rw [hv] at h
      exact absurd h (by simp)
    | none =>
      rw [hv] at h
      cases hc : checkMatches env
          (env.globMatches (env.workspace ++ "/" ++ substituteVarsSimple p vars)) with
      | error e =>
        rw [hc] at h
        exact absurd h (by simp)
      | ok rel =>
        rw [hc] at h
        cases hrec : resolve_patterns env rest vars required with
        | error e =>
          rw [hrec] at h
          exact absurd h (by simp)
        | ok pr =>
          rcases List.mem_cons.mp hpat with rfl | hp2
          · exact ⟨hv, checkMatches_ok_inside env _ rel hc⟩
          · obtain ⟨fs, ms⟩ := pr
            exact ih fs ms hrec pat hp2

/-- C9 (amended): in dependency resolution, a glob match whose real
(symlink-resolved) path lies outside the workspace root raises a path-safety
error — it is **not** silently excluded (silent exclusion is wait-for
behaviour); hard rejection also occurs for patterns that are absolute or
contain a `..` segment; a resolution that succeeds therefore had every
pattern safe and every match inside the workspace, and its outputs are
deduplicated per category and sorted as a combined list. -/
theorem C9_dependency_resolution (env : DepsEnv) (reqPats optPats : List String)
    (vars : List (String × String)) (res : DependencyResolution)
    (hok : resolveDeps env reqPats optPats vars = .ok res) :
    (∀ pat ∈ reqPats ++ optPats,
      validate_path_safety (substituteVarsSimple pat vars) = none
      ∧ ∀ m ∈ env.globMatches (env.workspace ++ "/" ++ substituteVarsSimple pat vars),
          env.workspace.data.isPrefixOf (env.realPath m).data = true)
    ∧ res.required_files.Nodup
    ∧ res.optional_files.Nodup
    ∧ List.Pairwise (fun a b => strLeB a b = true) res.files := by
  rw [resolveDeps] at hok
  cases hreq : resolve_patterns env reqPats vars true with
  | error e =>
    rw [hreq] at hok
    exact absurd hok (by simp)
  | ok prq =>
    rw [hreq] at hok
    obtain ⟨reqFiles, missing⟩ := prq
    cases hopt : resolve_patterns env optPats vars false with
    | error e =>
      rw [hopt] at hok
      exact absurd hok (by simp)
    | ok pro =>
      rw [hopt] at hok
      obtain ⟨optFiles, o2⟩ := pro
      have hres : res = { required_files := dedupFiles reqFiles,
                          optional_files := dedupFiles optFiles,
                          missing_required := missing } := by
        simp only [Except.ok.injEq] at hok
        exact hok.symm
      subst hres
      refine ⟨?_, dedupFiles_nodup _, dedupFiles_nodup _, pairwise_sortStrings _⟩
      intro pat hpat
      rcases List.mem_append.mp hpat with hp | hp
      · exact resolve_patterns_ok_safety env vars true reqPats reqFiles missing hreq pat hp
      · exact resolve_patterns_ok_safety env vars false optPats optFiles o2 hopt pat hp

/-- Witness for C9 at a concrete benign environment. -/
theorem C9_dependency_resolution_witness :
    (∀ pat ∈ ["data/*"] ++ ([] : List String),
      validate_path_safety (substituteVarsSimple pat []) = none
      ∧ ∀ m ∈ okEnv.globMatches (okEnv.workspace ++ "/" ++ substituteVarsSimple pat []),
          okEnv.workspace.data.isPrefixOf (okEnv.realPath m).data = true)
    ∧ (DependencyResolution.mk ["data/a.txt"] [] []).required_files.Nodup
    ∧ (DependencyResolution.mk ["data/a.txt"] [] []).optional_files.Nodup
    ∧ List.Pairwise (fun a b => strLeB a b = true)
        (DependencyResolution.mk ["data/a.txt"] [] []).files :=
  C9_dependency_resolution okEnv ["data/*"] [] []
    (DependencyResolution.mk ["data/a.txt"] [] []) rfl

/-- Counterexample to C9 as stated: a glob match whose real path escapes the
workspace makes `_resolve_patterns` raise a path-safety `ValueError` — the
match is not silently excluded, and the hard failure is not limited to
absolute or `..` patterns. -/
theorem C9_symlink_escape_raises :
    resolve_patterns escapeEnv ["data/*"] [] true
      = .error "Path safety violation: symlink escapes workspace: /ws/data/link.txt"
    ∧ ∀ files missing, resolve_patterns escapeEnv ["data/*"] [] true
        ≠ .ok (files, missing) := by
  have hmain : resolve_patterns escapeEnv ["data/*"] [] true
      = .error "Path safety violation: symlink escapes workspace: /ws/data/link.txt" := by
    rfl
  refine ⟨hmain, ?_⟩
  intro files missing hc
  rw [hmain] at hc
  exact Except.noConfusion hc

/-! ## C2 — mask completeness -/

theorem infix_star_cons (s z : List Char) (hne : s ≠ []) (hstar : star ∉ s) :
    s <:+: (star :: z) ↔ s <:+: z := by
  rw [List.infix_cons_iff]
  constructor
  · rintro (hpre | hinf)
    · cases s with
      | nil => exact absurd rfl hne
      | cons c cs =>
        obtain ⟨rfl, _⟩ := List.cons_prefix_cons.mp hpre
        exact absurd (List.mem_cons_self _ _) hstar
    · exact hinf
  · exact Or.inr

theorem infix_stars_append (s z : List Char) (hne : s ≠ []) (hstar : star ∉ s) :
    s <:+: (starsRepl ++ z) ↔ s <:+: z := by
  show s <:+: (star :: star :: star :: z) ↔ s <:+: z
  rw [infix_star_cons s _ hne hstar, infix_star_cons s _ hne hstar,
    infix_star_cons s _ hne hstar]

theorem replaceAll_no_new_prefix (pat : List Char) :
    ∀ (v q : List Char), q ≠ [] → star ∉ q → ¬ q <+: v →
      ¬ q <+: replaceAll pat starsRepl v := by
  intro v
  induction v with
  | nil =>
    intro q hne _ hnp
    rw [replaceAll]
    exact hnp
  | cons d vs ih =>
    intro q hne hstar hnp
    by_cases hm : pat ≠ [] ∧ pat.isPrefixOf (d :: vs)
    · rw [replaceAll, if_pos hm]
      intro hq
      cases q with
      | nil => exact hne rfl
      | cons c cs =>
        obtain ⟨rfl, _⟩ := List.cons_prefix_cons.mp hq
        exact hstar (List.mem_cons_self _ _)
    · rw [replaceAll, if_neg hm]
      intro hq
      cases q with
      | nil => exact hne rfl
      | cons c cs =>
        obtain ⟨rfl, hcs⟩ := List.cons_prefix_cons.mp hq
        have hncs : ¬ cs <+: vs := fun h2 => hnp (List.cons_prefix_cons.mpr ⟨rfl, h2⟩)
        have hcsne : cs ≠ [] := by
          rintro rfl
          exact hncs (List.nil_prefix)
        have hcstar : star ∉ cs := fun h2 => hstar (List.mem_cons_of_mem _ h2)
        exact ih cs hcsne hcstar hncs hcs

theorem replaceAll_no_self (pat : List Char) (hne : pat ≠ []) (hstar : star ∉ pat)
    (t : List Char) : ¬ pat <:+: replaceAll pat starsRepl t := by
  match t with
  | [] =>
    rw [replaceAll]
    rw [List.infix_nil]
    exact hne
  | c :: cs =>
    by_cases hm : pat ≠ [] ∧ pat.isPrefixOf (c :: cs)
    · rw [replaceAll, if_pos hm]
      rw [infix_stars_append _ _ hne hstar]
      exact replaceAll_no_self pat hne hstar (cs.drop (pat.length - 1))
    · rw [replaceAll, if_neg hm]
      intro hinf
      rcases List.infix_cons_iff.mp hinf with hpre | hinf2
      · have hnpre : ¬ pat <+: (c :: cs) := by
          intro h2
          exact hm ⟨hne, List.isPrefixOf_iff_prefix.mpr h2⟩
        cases pat with
        | nil => exact hne rfl
        | cons p0 ps =>
          obtain ⟨rfl, hps⟩ := List.cons_prefix_cons.mp hpre
          have hb : ¬ ps <+: cs := fun hq => hnpre (List.cons_prefix_cons.mpr ⟨rfl, hq⟩)
          have hpsne : ps ≠ [] := by
            rintro rfl
            exact hb (List.nil_prefix)
          have hpstar : star ∉ ps := fun hmem => hstar (List.mem_cons_of_mem _ hmem)
          exact replaceAll_no_new_prefix (p0 :: ps) cs ps hpsne hpstar hb hps
      · exact replaceAll_no_self pat hne hstar cs hinf2
termination_by t.length
decreasing_by
  · simp [List.length_drop]
    omega
  · simp

theorem replaceAll_no_new_occurrence (pat t s : List Char) (hne : s ≠ [])
    (hstar : star ∉ s) (hni : ¬ s <:+: t) :
    ¬ s <:+: replaceAll pat starsRepl t := by
  match t, hni with
  | [], hni =>
    rw [replaceAll]
    exact hni
  | c :: cs, hni =>
    by_cases hm : pat ≠ [] ∧ pat.isPrefixOf (c :: cs)
    · rw [replaceAll, if_pos hm]
      rw [infix_stars_append _ _ hne hstar]
      have hdrop : ¬ s <:+: cs.drop (pat.length - 1) := by
        intro h2
        exact hni (List.infix_cons
          (h2.trans (List.drop_suffix _ _).isInfix))
      exact replaceAll_no_new_occurrence pat (cs.drop (pat.length - 1)) s hne hstar hdrop
    · rw [replaceAll, if_neg hm]
      intro hinf
      rcases List.infix_cons_iff.mp hinf with hpre | hinf2
      · have hnpre : ¬ s <+: (c :: cs) := fun h2 =>
          hni (List.infix_cons_iff.mpr (Or.inl h2))
        cases s with
        | nil => exact hne rfl
        | cons s0 ss =>
          obtain ⟨rfl, hss⟩ := List.cons_prefix_cons.mp hpre
          have hb : ¬ ss <+: cs := fun hq => hnpre (List.cons_prefix_cons.mpr ⟨rfl, hq⟩)
          have hssne : ss ≠ [] := by
            rintro rfl
            exact hb (List.nil_prefix)
          have hsstar : star ∉ ss := fun hmem => hstar (List.mem_cons_of_mem _ hmem)
          exact replaceAll_no_new_prefix pat cs ss hssne hsstar hb hss
      · have hcs : ¬ s <:+: cs := fun h2 => hni (List.infix_cons h2)
        exact replaceAll_no_new_occurrence pat cs s hne hstar hcs hinf2
termination_by t.length
decreasing_by
  · simp [List.length_drop]
    omega
  · simp

theorem maskFold_preserves (s : List Char) (hne : s ≠ []) (hstar : star ∉ s) :
    ∀ (l : List (List Char)) (acc : List Char), ¬ s <:+: acc →
      ¬ s <:+: l.foldl
        (fun acc v => if v <:+: acc then replaceAll v starsRepl acc else acc) acc := by
  intro l
  induction l with
  | nil => intro acc h; exact h
  | cons v vs ih =>
    intro acc h
    simp only [List.foldl_cons]
    by_cases hv : v <:+: acc
    · rw [if_pos hv]
      exact ih _ (replaceAll_no_new_occurrence v acc s hne hstar h)
    · rw [if_neg hv]
      exact ih _ h

theorem maskFold_processed (s : List Char) (hne : s ≠ []) (hstar : star ∉ s) :
    ∀ (l : List (List Char)) (acc : List Char), s ∈ l →
      ¬ s <:+: l.foldl
        (fun acc v => if v <:+: acc then replaceAll v starsRepl acc else acc) acc := by
  intro l
  induction l with
  | nil =>
    intro acc h
    simp at h
  | cons v vs ih =>
    intro acc hmem
    simp only [List.foldl_cons]
    rcases List.mem_cons.mp hmem with rfl | h2
    · by_cases hv : s <:+: acc
      · rw [if_pos hv]
        exact maskFold_preserves s hne hstar vs _ (replaceAll_no_self s hne hstar acc)
      · rw [if_neg hv]
        exact maskFold_preserves s hne hstar vs _ hv
    · by_cases hv : v <:+: acc
      · rw [if_pos hv]
        exact ih _ h2
      · rw [if_neg hv]
        exact ih _ h2

theorem mem_sortLenDesc (s : List Char) (l : List (List Char)) :
    s ∈ sortLenDesc l ↔ s ∈ l :=
  (perm_sortByLe _ l).mem_iff

/-- No secret that is non-empty and free of `*` survives `mask_text`. -/
theorem maskChars_complete (secrets : List (List Char)) (text s : List Char)
    (hmem : s ∈ secrets) (hne : s ≠ []) (hstar : star ∉ s) :
    ¬ s <:+: maskChars secrets text := by
  rw [maskChars]
  by_cases hguard : text = [] ∨ secrets = []
  · rw [if_pos hguard]
    rcases hguard with rfl | rfl
    · rw [List.infix_nil]
      exact hne
    · simp at hmem
  · rw [if_neg hguard]
    exact maskFold_processed s hne hstar _ text ((mem_sortLenDesc s secrets).mpr hmem)

theorem maskChars_nil_secrets (text : List Char) : maskChars [] text = text := by
  rw [maskChars]
  rw [if_pos (Or.inr rfl)]

theorem topStrings_maskItemsTop (secrets : List (List Char)) :
    ∀ (items : JItems) (leaf : String),
      leaf ∈ topStrings (maskItemsTop secrets items) →
      ∃ t, leaf = mask_text secrets t
  | .nil, leaf, h => by simp [maskItemsTop, topStrings] at h
  | .cons (.str s) rest, leaf, h => by
    simp only [maskItemsTop, topStrings] at h
    rcases List.mem_cons.mp h with rfl | h2
    · exact ⟨s, rfl⟩
    · exact topStrings_maskItemsTop secrets rest leaf h2
  | .cons .null rest, leaf, h => by
    simp only [maskItemsTop, topStrings] at h
    exact topStrings_maskItemsTop secrets rest leaf h
  | .cons (.bool b) rest, leaf, h => by
    simp only [maskItemsTop, topStrings] at h
    exact topStrings_maskItemsTop secrets rest leaf h
  | .cons (.num n) rest, leaf, h => by
    simp only [maskItemsTop, topStrings] at h
    exact topStrings_maskItemsTop secrets rest leaf h
  | .cons (.arr its) rest, leaf, h => by
    simp only [maskItemsTop, topStrings] at h
    exact topStrings_maskItemsTop secrets rest leaf h
  | .cons (.obj fs) rest, leaf, h => by
    simp only [maskItemsTop, topStrings] at h
    exact topStrings_maskItemsTop secrets rest leaf h

theorem maskDict_obj_shape (secrets : List (List Char)) (fs : JFields) :
    ∃ fs2, mask_dict secrets (.obj fs) = .obj fs2 := by
  rw [mask_dict]
  by_cases hguard : isEmptyFields fs = true ∨ secrets = []
  · exact ⟨fs, if_pos hguard⟩
  · exact ⟨maskFields secrets fs, if_neg hguard⟩

mutual

theorem maskDict_reachable (secrets : List (List Char)) :
    ∀ (j : Json) (leaf : String), leaf ∈ maskReachable (mask_dict secrets j) →
      ∃ t, leaf = mask_text secrets t
  | .null, leaf, h => by simp [mask_dict, maskReachable] at h
  | .bool b, leaf, h => by simp [mask_dict, maskReachable] at h
  | .num n, leaf, h => by simp [mask_dict, maskReachable] at h
  | .str s, leaf, h => by simp [mask_dict, maskReachable] at h
  | .arr items, leaf, h => by simp [mask_dict, maskReachable] at h
  | .obj fs, leaf, h => by
    rw [mask_dict] at h
    by_cases hguard : isEmptyFields fs = true ∨ secrets = []
    · rw [if_pos hguard] at h
      rcases hguard with hfs | rfl
      · cases fs with
        | nil => simp [maskReachable, maskReachableFields] at h
        | cons k v rest => simp [isEmptyFields] at hfs
      · exact ⟨String.mk leaf.data, by
          rw [mask_text, maskChars_nil_secrets]⟩
    · rw [if_neg hguard] at h
      rw [maskReachable] at h
      exact maskFields_reachable secrets fs leaf h

theorem maskFields_reachable (secrets : List (List Char)) :
    ∀ (fs : JFields) (leaf : String),
      leaf ∈ maskReachableFields (maskFields secrets fs) →
      ∃ t, leaf = mask_text secrets t
  | .nil, leaf, h => by simp [maskFields, maskReachableFields] at h
  | .cons k (.str s) rest, leaf, h => by
    simp only [maskFields, maskReachableFields] at h
    rcases List.mem_append.mp h with hhead | htail
    · rcases List.mem_cons.mp hhead with rfl | h2
      · exact ⟨s, rfl⟩
      · simp at h2
    · exact maskFields_reachable secrets rest leaf htail
  | .cons k (.obj fs1) rest, leaf, h => by
    simp only [maskFields] at h
    obtain ⟨fs2, hfs2⟩ := maskDict_obj_shape secrets fs1
    rw [hfs2, maskReachableFields] at h
    rcases List.mem_append.mp h with hhead | htail
    · rw [maskReachable] at hhead
      apply maskDict_reachable secrets (.obj fs1) leaf
      rw [hfs2, maskReachable]
      exact hhead
    · exact maskFields_reachable secrets rest leaf htail
  | .cons k (.arr items) rest, leaf, h => by
    simp only [maskFields, maskReachableFields] at h
    rcases List.mem_append.mp h with hhead | htail
    · exact topStrings_maskItemsTop secrets items leaf hhead
    · exact maskFields_reachable secrets rest leaf htail
  | .cons k .null rest, leaf, h => by
    simp only [maskFields, maskReachableFields] at h
    rcases List.mem_append.mp h with hhead | htail
    · simp at hhead
    · exact maskFields_reachable secrets rest leaf htail
  | .cons k (.bool b) rest, leaf, h => by
    simp only [maskFields, maskReachableFields] at h
    rcases List.mem_append.mp h with hhead | htail
    · simp at hhead
    · exact maskFields_reachable secrets rest leaf htail
  | .cons k (.num n) rest, leaf, h => by
    simp only [maskFields, maskReachableFields] at h
    rcases List.mem_append.mp h with hhead | htail
    · simp at hhead
    · exact maskFields_reachable secrets rest leaf htail

end

/-- C2 (amended): for every non-empty secret value S recorded during a run
that does not contain the replacement character `*`, masking replaces S with
`***` longest-value-first, so no masked text (captured `output`, a `lines`
entry, or a debug prompt) contains S as a substring, and neither does any
string that `mask_dict`'s traversal reaches in a persisted JSON document —
its string values, strings in nested dict values, and top-level string items
of list values; strings inside containers nested in a list are **not**
traversed. Empty-string secrets are never recorded for masking. -/
theorem C2_mask_completeness (secrets : List (List Char)) (text : List Char)
    (j : Json) (s : List Char) (hmem : s ∈ secrets) (hne : s ≠ [])
    (hstar : star ∉ s) :
    ¬ s <:+: maskChars secrets text
    ∧ (∀ leaf ∈ maskReachable (mask_dict secrets j), ¬ s <:+: leaf.data)
    ∧ (∀ (osEnv : Env) (declared : List String) (stepEnv : List (String × String)),
        "" ∉ (resolve_secrets osEnv declared stepEnv).2) := by
  refine ⟨maskChars_complete secrets text s hmem hne hstar, ?_, ?_⟩
  · intro leaf hleaf
    obtain ⟨t, rfl⟩ := maskDict_reachable secrets j leaf hleaf
    have hdata : (mask_text secrets t).data = maskChars secrets t.data := rfl
    rw [hdata]
    exact maskChars_complete secrets t.data s hmem hne hstar
  · intro osEnv declared stepEnv hmem2
    simp only [resolve_secrets, List.mem_filter] at hmem2
    simp at hmem2

/-- Witness for C2 at a concrete secret and document. -/
theorem C2_mask_completeness_witness :
    ¬ "SECRET".data <:+: maskChars ["SECRET".data] "ab SECRET cd".data
    ∧ (∀ leaf ∈ maskReachable (mask_dict ["SECRET".data]
          (.obj (.cons "k" (.str "x SECRET y") .nil))), ¬ "SECRET".data <:+: leaf.data)
    ∧ (∀ (osEnv : Env) (declared : List String) (stepEnv : List (String × String)),
        "" ∉ (resolve_secrets osEnv declared stepEnv).2) :=
  C2_mask_completeness ["SECRET".data] ("ab SECRET cd".data)
    (.obj (.cons "k" (.str "x SECRET y") .nil)) ("SECRET".data)
    (by decide) (by decide) (by decide)

/-- Counterexample to C2 as stated: with the non-empty secret `SECRET`
recorded, `mask_dict` leaves a document containing the secret in a string
leaf nested inside a dict inside a list completely unchanged — the leaf
still contains the secret as a substring, contradicting "masking replaces S
… in every string inside sequences and maps recursively, so no … persisted
JSON leaf … contains S as a substring". -/
theorem C2_nested_leaf_unmasked :
    mask_dict ["SECRET".data]
        (.obj (.cons "a" (.arr (.cons (.obj (.cons "b" (.str "SECRET") .nil)) .nil)) .nil))
      = .obj (.cons "a" (.arr (.cons (.obj (.cons "b" (.str "SECRET") .nil)) .nil)) .nil)
    ∧ "SECRET" ∈ Json.stringLeaves
        (mask_dict ["SECRET".data]
          (.obj (.cons "a" (.arr (.cons (.obj (.cons "b" (.str "SECRET") .nil)) .nil)) .nil)))
    ∧ "SECRET".data ≠ []
    ∧ "SECRET".data <:+: "SECRET".data := by
  refine ⟨rfl, by decide, by decide, by decide⟩

end Orch
